import Mathlib

/-!
# TinyEngine `convolve_1x1_s8` with MAC pruning: a shallow embedding

Source: `src/TinyEngine/src/kernels/int_forward_op/convolve_1x1_s8.c`.

Modelling conventions.
* Memory regions reached through a C pointer (`input`, `kernel`, `bias`, the
  two global bitmaps, ...) are functions from an element offset to the stored
  number.  A load normalises what it reads to the width of the load
  (`ldrsb` sign-extends a byte, `ldrb` zero-extends it, an `int32_t` load
  wraps to 32 bits).
* `input`, `output` and `runtime_buf` are separate regions.
* 32-bit signed arithmetic is `Int` arithmetic followed by `wrap32`.
* The routines and macros the kernel calls that are defined in other
  translation units (`q7_q15_offset_reordered_ele`,
  `arm_nn_mat_mult_kernel_s8_s16_reordered`, `arm_nn_requantize`) are
  parameters, collected in `Extern`.
* Observable effects (trigger edges, `simpleserial_put` messages, bitmap
  reads, executed MACs, vectorized passes) are recorded in an event trace.
-/

namespace TinyEngine

/-- Two's-complement reduction of an integer to `int32_t` (`q31_t`). -/
@[irreducible]
def wrap32 (x : Int) : Int := (x + 2147483648) % 4294967296 - 2147483648

/-- Sign extension of the low 16 bits (`q15_t`, bottom halfword of a register). -/
@[irreducible]
def sext16 (x : Int) : Int := (x + 32768) % 65536 - 32768

/-- Sign extension of the low 8 bits (`q7_t`, what `ldrsb` produces). -/
@[irreducible]
def sext8 (x : Int) : Int := (x + 128) % 256 - 128

/-- `ldrsb rd, [base, off]`: load a byte and sign-extend it. -/
def ldrsb (mem : Nat → Int) (base off : Nat) : Int := sext8 (mem (base + off))

/-- `ldrb rd, [base, off]`: load a byte and zero-extend it. -/
def ldrb (mem : Nat → Nat) (off : Nat) : Nat := mem off % 256

/-- `smlabb rd, rn, rm, ra`: `ra + bottom16(rn) * bottom16(rm)`, 32-bit result. -/
def smlabb (rn rm ra : Int) : Int := wrap32 (ra + sext16 rn * sext16 rm)

/-- CMSIS `__PKHBT(a, b, sh)`: bottom halfword of `a`, top halfword of `b << sh`. -/
def PKHBT (a b : Int) (sh : Nat) : Int :=
  wrap32 (a % 65536 + ((b * 2 ^ sh) / 65536 % 65536) * 65536)

/-- The four payload bytes of an `int32_t` as laid out in memory on the
little-endian Cortex-M4 (`(uint8_t *)&sum`). -/
def bytesOfInt32 (x : Int) : List Nat :=
  let u := (x % 4294967296).toNat
  [u % 256, u / 256 % 256, u / 65536 % 256, u / 16777216 % 256]

/-- Return codes of the kernel. -/
inductive tinyengine_status
  | STATE_SUCCESS
  | PARAM_NO_SUPPORT
  deriving DecidableEq, Repr

/-- Observable events of one kernel call, in program order. -/
inductive Event
  /-- One iteration of the two-column loop (lines 77-103), with its index. -/
  | vecPass (i_element : Nat)
  /-- Call of `trigger_high()`. -/
  | triggerHigh
  /-- Call of `trigger_low()`. -/
  | triggerLow
  /-- Byte load from `IaPAM` at the given index (`IMAC_check`). -/
  | readIaPAM (idx : Nat)
  /-- Byte load from `toExecTable` at the given index (`NIMAC_check`). -/
  | readToExec (idx : Nat)
  /-- One `smlabb` executed on `kernel[kerIdx]` and `input[inIdx]`. -/
  | mac (kerIdx inIdx : Nat)
  /-- Call of `simpleserial_put(tag, len, data)` with `len` bytes `data`. -/
  | put (tag : Char) (data : List Nat)
  deriving DecidableEq, Repr

/-- Routines defined outside this translation unit. -/
structure Extern where
  /-- The macro `q7_q15_offset_reordered_ele(src, dst)`: reads four `q7_t` at
  `src`, writes four `q15_t` at `dst` of the scratch buffer (given the packed
  offset `offset_q15x2`); returns the new scratch buffer. -/
  q7_q15_offset_reordered_ele :
    (Nat → Int) → Nat → Int → (Nat → Int) → Nat → (Nat → Int)
  /-- The routine `arm_nn_mat_mult_kernel_s8_s16_reordered(kernel, buf, output_ch,
  shift, mult, out_offset, act_min, act_max, num_col_a, bias, out)`:
  returns the new output region and the advanced `out` offset. -/
  arm_nn_mat_mult_kernel_s8_s16_reordered :
    (Nat → Int) → (Nat → Int) → Nat → (Nat → Int) → (Nat → Int) → Int → Int → Int →
      Nat → (Nat → Int) → (Nat → Int) → Nat → (Nat → Int) × Nat
  /-- The routine `arm_nn_requantize(val, multiplier, shift)`. -/
  arm_nn_requantize : Int → Int → Int → Int

/-- The two global bitmaps (`extern uint8_t IaPAM[]`, `toExecTable[]`). -/
structure Bitmaps where
  IaPAM : Nat → Nat
  toExecTable : Nat → Nat

/-- Arguments of `convolve_1x1_s8` that are read only. The `uint16_t`
parameters are `Fin 65536`. -/
structure Args where
  input : Nat → Int
  input_x : Fin 65536
  input_y : Fin 65536
  input_ch : Fin 65536
  kernel : Nat → Int
  bias : Nat → Int
  output_shift : Nat → Int
  output_mult : Nat → Int
  out_offset : Int
  input_offset : Int
  out_activation_min : Int
  out_activation_max : Int
  output_x : Fin 65536
  output_y : Fin 65536
  output_ch : Fin 65536

/-- What a call can change: the output region, the scratch buffer, and the
trace of events emitted so far. -/
structure State where
  output : Nat → Int
  runtime_buf : Nat → Int
  trace : List Event

/-- Store of one element into a region. -/
def store (mem : Nat → Int) (off : Nat) (v : Int) : Nat → Int :=
  fun j => if j = off then v else mem j

/-- The inline-assembly loop of lines 159-199, entered at `LoopExitCheck` with
the induction register `r0`; `sum` is the accumulator register. Returns the
accumulator at `Exit` and the events of the loop. -/
def octetLoop (g : Bitmaps) (kernel input : Nat → Int) (input_set ker_a ip : Nat) :
    Nat → Int → Int × List Event
  | 0, sum => (sum, [])
  | r0 + 1, sum =>
    -- sub.w r0, r0, #1 ; IMAC_check
    if ldrb g.IaPAM input_set &&& (1 <<< r0) ≠ 0 then
      let r := octetLoop g kernel input input_set ker_a ip r0
        (smlabb (ldrsb input ip r0) (ldrsb kernel ker_a r0) sum)
      (r.1, Event.readIaPAM input_set :: Event.mac (ker_a + r0) (ip + r0) :: r.2)
    -- NIMAC_check
    else if ldrb g.toExecTable input_set &&& (1 <<< r0) ≠ 0 then
      let r := octetLoop g kernel input input_set ker_a ip r0
        (smlabb (ldrsb input ip r0) (ldrsb kernel ker_a r0) sum)
      (r.1, Event.readIaPAM input_set :: Event.readToExec input_set ::
        Event.mac (ker_a + r0) (ip + r0) :: r.2)
    else
      let r := octetLoop g kernel input input_set ker_a ip r0 sum
      (r.1, Event.readIaPAM input_set :: Event.readToExec input_set :: r.2)

/-- The `while (col_count)` loop of lines 137-218. `input_set` is a `uint8_t`
and wraps at 256. Returns the accumulator, the advanced `ker_a`, and the
events. -/
def colLoop (g : Bitmaps) (kernel input : Nat → Int) :
    Nat → Int → Nat → Nat → Nat → Int × Nat × List Event
  | 0, sum, _, ker_a, _ => (sum, ker_a, [])
  | col_count + 1, sum, ip, ker_a, input_set =>
    let o := octetLoop g kernel input input_set ker_a ip 8 sum
    let r := colLoop g kernel input col_count o.1 (ip + 8) (ker_a + 8) ((input_set + 1) % 256)
    (r.1, r.2.1, o.2 ++ r.2.2)

/-- Result of the per-channel loop: output region, `out` offset, `ker_a`,
events, and (as ghost data) the raw accumulators in channel order. -/
structure ChanResult where
  output : Nat → Int
  out : Nat
  ker_a : Nat
  events : List Event
  sums : List Int

/-- The `for (i_ch_out ...)` loop of lines 129-234, with `todo` iterations
left starting at channel `i_ch_out`. -/
def chanLoop (x : Extern) (g : Bitmaps) (a : Args) :
    Nat → Nat → (Nat → Int) → Nat → Nat → ChanResult
  | 0, _, output, out, ker_a => ⟨output, out, ker_a, [], []⟩
  | todo + 1, i_ch_out, output, out, ker_a =>
    let sum0 := wrap32 (a.bias i_ch_out)
    -- const q7_t *ip = input; col_count = input_ch >> 3; input_set = 0
    let c := colLoop g a.kernel a.input (a.input_ch.val / 8) sum0 0 ker_a 0
    let sum := c.1
    let q := x.arm_nn_requantize sum (wrap32 (a.output_mult i_ch_out))
      (wrap32 (a.output_shift i_ch_out))
    let q1 := wrap32 (q + a.out_offset)
    let q2 := max q1 a.out_activation_min
    let q3 := min q2 a.out_activation_max
    let r := chanLoop x g a todo (i_ch_out + 1) (store output out (sext8 q3)) (out + 1) c.2.1
    ⟨r.output, r.out, r.ker_a,
      c.2.2 ++ Event.triggerLow :: Event.put 'r' (bytesOfInt32 sum) ::
        Event.put 'e' [0] :: r.events,
      sum :: r.sums⟩

/-- Repeated expansion of `q7_q15_offset_reordered_ele` (`cnt` expansions),
`src` and `dst` advancing by four elements each time. -/
def fillLoop (x : Extern) (input : Nat → Int) (offset_q15x2 : Int) :
    Nat → Nat → Nat → (Nat → Int) → (Nat → Int)
  | 0, _, _, buf => buf
  | cnt + 1, src, dst, buf =>
    fillLoop x input offset_q15x2 cnt (src + 4) (dst + 4)
      (x.q7_q15_offset_reordered_ele input src offset_q15x2 buf dst)

/-- Result of the two-column loop: output region, scratch buffer, `out`
offset, events. -/
structure VecResult where
  output : Nat → Int
  runtime_buf : Nat → Int
  out : Nat
  events : List Event

/-- The two-column loop of lines 77-103, with `todo` iterations left starting
at `i_element`. -/
def vecLoop (x : Extern) (a : Args) (offset_q15x2 : Int) :
    Nat → Nat → (Nat → Int) → (Nat → Int) → Nat → VecResult
  | 0, _, output, buf, out => ⟨output, buf, out, []⟩
  | todo + 1, i_element, output, buf, out =>
    let buf1 := fillLoop x a.input offset_q15x2 (2 * (a.input_ch.val / 4))
      (i_element * a.input_ch.val * 2) 0 buf
    let m := x.arm_nn_mat_mult_kernel_s8_s16_reordered a.kernel buf1 a.output_ch.val
      a.output_shift a.output_mult (sext8 a.out_offset) a.out_activation_min
      a.out_activation_max a.input_ch.val a.bias output out
    let r := vecLoop x a offset_q15x2 todo (i_element + 1) m.1 buf1 m.2
    ⟨r.output, r.runtime_buf, r.out, Event.vecPass i_element :: r.events⟩

/-- The value of `num_elements` (line 71): the product of the two promoted
`uint16_t` extents, as an `int32_t`. The C product is defined up to `INT_MAX`
only; beyond it this is the two's-complement value, a convention of the
model. -/
def numElements (a : Args) : Int := wrap32 ((a.output_x.val * a.output_y.val : Nat) : Int)

/-- The value of `offset_q15x2` (lines 74-75). -/
def offsetQ15x2 (a : Args) : Int := PKHBT (sext16 a.input_offset) (sext16 a.input_offset) 16

/-- Number of iterations of `for (i_element = 0; i_element < num_elements / 2;
i_element++)`, `/` being C division. -/
def vecPasses (a : Args) : Nat := (Int.tdiv (numElements a) 2).toNat

/-- The two-column loop as entered by a call (lines 69-103). -/
def vecRun (x : Extern) (a : Args) (s : State) : VecResult :=
  vecLoop x a (offsetQ15x2 a) (vecPasses a) 0 s.output s.runtime_buf 0

/-- The scratch buffer after the residual column has been expanded into it
(lines 109-123). -/
def residualBuf (x : Extern) (a : Args) (s : State) : Nat → Int :=
  fillLoop x a.input (offsetQ15x2 a) (a.input_ch.val / 4)
    ((numElements a - 1) * a.input_ch.val).toNat 0 (vecRun x a s).runtime_buf

/-- Result of a call: status, final state, raw fallback accumulators (ghost). -/
structure Result where
  status : tinyengine_status
  state : State
  sums : List Int

/-- The kernel `convolve_1x1_s8` (lines 53-239). -/
def convolve_1x1_s8 (x : Extern) (g : Bitmaps) (a : Args) (s : State) : Result :=
  if a.input_ch.val % 4 ≠ 0 ∨ a.input_ch.val % 2 ≠ 0 then
    ⟨tinyengine_status.PARAM_NO_SUPPORT, s, []⟩
  else if numElements a % 2 = 1 then
    -- the two-column loop, then `if (num_elements & 0x1)` taken
    ⟨tinyengine_status.STATE_SUCCESS,
      ⟨(chanLoop x g a a.output_ch.val 0 (vecRun x a s).output (vecRun x a s).out 0).output,
        residualBuf x a s,
        s.trace ++ (vecRun x a s).events ++ Event.triggerHigh ::
          (chanLoop x g a a.output_ch.val 0 (vecRun x a s).output (vecRun x a s).out 0).events⟩,
      (chanLoop x g a a.output_ch.val 0 (vecRun x a s).output (vecRun x a s).out 0).sums⟩
  else
    ⟨tinyengine_status.STATE_SUCCESS,
      ⟨(vecRun x a s).output, (vecRun x a s).runtime_buf, s.trace ++ (vecRun x a s).events⟩, []⟩

/-! ## Specification-side definitions -/

/-- The two-bitmap decision for input element `i`, with the bitmap byte
taken at index `idx`: importance bit set, or fallback-execute bit set. -/
def executes (g : Bitmaps) (idx i : Nat) : Bool :=
  (g.IaPAM idx).testBit (i % 8) || (g.toExecTable idx).testBit (i % 8)

/-- Contribution of input element `i` to the accumulator of a channel whose
weights start at `kbase`, the bitmap byte index being `idx`. -/
def contribution (g : Bitmaps) (kernel input : Nat → Int) (kbase idx i : Nat) : Int :=
  if executes g idx i then sext8 (kernel (kbase + i)) * sext8 (input i) else 0

/-- The masked sum claimed for channel `c`: bias plus the products of the
elements selected by `IaPAM[i div 8]` or `toExecTable[i div 8]`, in 32 bits. -/
def maskedSum (g : Bitmaps) (a : Args) (c : Nat) : Int :=
  wrap32 (a.bias c + ∑ i in Finset.range a.input_ch.val,
    contribution g a.kernel a.input (c * a.input_ch.val) (i / 8) i)

/-- The masked sum the kernel computes: as `maskedSum`, with the bitmap byte
index reduced modulo 256 (the octet counter is a `uint8_t`). -/
def maskedSum256 (g : Bitmaps) (a : Args) (c : Nat) : Int :=
  wrap32 (a.bias c + ∑ i in Finset.range a.input_ch.val,
    contribution g a.kernel a.input (c * a.input_ch.val) (i / 8 % 256) i)

/-! ## Arithmetic helpers -/

theorem wrap32_idem (x : Int) : wrap32 (wrap32 x) = wrap32 x := by
  unfold wrap32; omega

theorem wrap32_add_wrap32 (x y : Int) : wrap32 (wrap32 x + y) = wrap32 (x + y) := by
  unfold wrap32; omega

theorem wrap32_of_range (x : Int) (h1 : -2147483648 ≤ x) (h2 : x < 2147483648) :
    wrap32 x = x := by
  unfold wrap32; omega

theorem sext16_sext8 (x : Int) : sext16 (sext8 x) = sext8 x := by
  unfold sext16 sext8; omega

theorem smlabb_ldrsb (kernel input : Nat → Int) (ker_a ip r0 : Nat) (sum : Int) :
    smlabb (ldrsb input ip r0) (ldrsb kernel ker_a r0) sum
      = wrap32 (sum + sext8 (kernel (ker_a + r0)) * sext8 (input (ip + r0))) := by
  simp only [smlabb, ldrsb, sext16_sext8]
  rw [mul_comm]

theorem bit_test_iff (mem : Nat → Nat) (idx r : Nat) (hr : r < 8) :
    ldrb mem idx &&& (1 <<< r) ≠ 0 ↔ (mem idx).testBit r = true := by
  have h256 : (256 : Nat) = 2 ^ 8 := by norm_num
  have hb : (mem idx % 256).testBit r = (mem idx).testBit r := by
    rw [h256, Nat.testBit_mod_two_pow]
    simp [hr]
  unfold ldrb
  rw [Nat.one_shiftLeft, Nat.and_two_pow, hb]
  cases (mem idx).testBit r <;> simp

/-! ## The masked accumulation loops -/

/-- Term added by the loops for the element at distance `i` from the start
pointers `ker_a`, `ip`, with the octet counter starting at `input_set`. -/
def loopTerm (g : Bitmaps) (kernel input : Nat → Int) (input_set ker_a ip i : Nat) : Int :=
  if executes g ((input_set + i / 8) % 256) i then
    sext8 (kernel (ker_a + i)) * sext8 (input (ip + i)) else 0

theorem octetLoop_sum (g : Bitmaps) (kernel input : Nat → Int) (input_set ker_a ip : Nat)
    (hs : input_set < 256) (r : Nat) (hr : r ≤ 8) (sum : Int) (hsum : wrap32 sum = sum) :
    (octetLoop g kernel input input_set ker_a ip r sum).1
      = wrap32 (sum + ∑ j in Finset.range r, loopTerm g kernel input input_set ker_a ip j) := by
  induction r generalizing sum with
  | zero => simp [octetLoop, hsum]
  | succ r ih =>
    have hr8 : r < 8 := by omega
    have hidx : (input_set + r / 8) % 256 = input_set := by omega
    have hmod : r % 8 = r := by omega
    rw [Finset.sum_range_succ]
    unfold octetLoop
    by_cases h1 : ldrb g.IaPAM input_set &&& (1 <<< r) ≠ 0
    · rw [if_pos h1]
      have hb := (bit_test_iff g.IaPAM input_set r hr8).1 h1
      simp only []
      rw [ih (by omega) _ (by rw [smlabb_ldrsb, wrap32_idem]), smlabb_ldrsb, wrap32_add_wrap32]
      simp only [loopTerm, executes, hidx, hmod, hb, Bool.true_or, if_true]
      congr 1; ring
    · rw [if_neg h1]
      have hb : (g.IaPAM input_set).testBit r = false := by
        cases hc : (g.IaPAM input_set).testBit r
        · rfl
        · exact absurd ((bit_test_iff g.IaPAM input_set r hr8).2 hc) h1
      by_cases h2 : ldrb g.toExecTable input_set &&& (1 <<< r) ≠ 0
      · rw [if_pos h2]
        have hb2 := (bit_test_iff g.toExecTable input_set r hr8).1 h2
        simp only []
        rw [ih (by omega) _ (by rw [smlabb_ldrsb, wrap32_idem]), smlabb_ldrsb,
          wrap32_add_wrap32]
        simp only [loopTerm, executes, hidx, hmod, hb, hb2, Bool.false_or, if_true]
        congr 1; ring
      · rw [if_neg h2]
        have hb2 : (g.toExecTable input_set).testBit r = false := by
          cases hc : (g.toExecTable input_set).testBit r
          · rfl
          · exact absurd ((bit_test_iff g.toExecTable input_set r hr8).2 hc) h2
        simp only []
        rw [ih (by omega) _ hsum]
        simp [loopTerm, executes, hidx, hmod, hb, hb2]

theorem colLoop_sum (g : Bitmaps) (kernel input : Nat → Int) (n : Nat) (sum : Int)
    (ip ker_a input_set : Nat) (hs : input_set < 256) (hsum : wrap32 sum = sum) :
    (colLoop g kernel input n sum ip ker_a input_set).1
      = wrap32 (sum + ∑ i in Finset.range (8 * n),
          loopTerm g kernel input input_set ker_a ip i) := by
  induction n generalizing sum ip ker_a input_set with
  | zero => simp [colLoop, hsum]
  | succ n ih =>
    unfold colLoop
    simp only []
    have ho := octetLoop_sum g kernel input input_set ker_a ip hs 8 (le_refl 8) sum hsum
    rw [ih _ _ _ _ (Nat.mod_lt _ (by norm_num)) (by rw [ho, wrap32_idem]), ho,
      wrap32_add_wrap32]
    have h8 : 8 * (n + 1) = 8 + 8 * n := by ring
    rw [h8, Finset.sum_range_add, add_assoc]
    congr 3
    apply Finset.sum_congr rfl
    intro i _
    have e1 : ((input_set + 1) % 256 + i / 8) % 256 = (input_set + (8 + i) / 8) % 256 := by
      omega
    have e2 : (8 + i) % 8 = i % 8 := by omega
    simp only [loopTerm, executes, e1, e2]
    have e3 : ker_a + 8 + i = ker_a + (8 + i) := by ring
    have e4 : ip + 8 + i = ip + (8 + i) := by ring
    rw [e3, e4]

theorem colLoop_ker_a (g : Bitmaps) (kernel input : Nat → Int) (n : Nat) (sum : Int)
    (ip ker_a input_set : Nat) :
    (colLoop g kernel input n sum ip ker_a input_set).2.1 = ker_a + 8 * n := by
  induction n generalizing sum ip ker_a input_set with
  | zero => simp [colLoop]
  | succ n ih =>
    unfold colLoop
    simp only []
    rw [ih]
    ring

/-! ## The per-channel loop, channel by channel -/

/-- Distance by which `ker_a` advances during one channel. -/
def kerStride (a : Args) : Nat := 8 * (a.input_ch.val / 8)

/-- Raw accumulator of channel `i_ch_out` when its `while` loop is entered
with the weight pointer at `ker_a`. -/
def fallbackAcc (g : Bitmaps) (a : Args) (ker_a i_ch_out : Nat) : Int :=
  (colLoop g a.kernel a.input (a.input_ch.val / 8) (wrap32 (a.bias i_ch_out)) 0 ker_a 0).1

/-- Events of the `while` loop of one channel (bitmap reads and MACs). -/
def macEvents (g : Bitmaps) (a : Args) (ker_a i_ch_out : Nat) : List Event :=
  (colLoop g a.kernel a.input (a.input_ch.val / 8) (wrap32 (a.bias i_ch_out)) 0 ker_a 0).2.2

/-- Events of one iteration of the channel loop. -/
def chanEvents (g : Bitmaps) (a : Args) (ker_a i_ch_out : Nat) : List Event :=
  macEvents g a ker_a i_ch_out ++
    [Event.triggerLow, Event.put 'r' (bytesOfInt32 (fallbackAcc g a ker_a i_ch_out)),
      Event.put 'e' [0]]

/-- Lines 228-233: requantize, add the output offset, clamp, narrow. -/
def outByte (x : Extern) (a : Args) (sum : Int) (i_ch_out : Nat) : Int :=
  sext8 (min (max (wrap32 (x.arm_nn_requantize sum (wrap32 (a.output_mult i_ch_out))
    (wrap32 (a.output_shift i_ch_out)) + a.out_offset)) a.out_activation_min)
    a.out_activation_max)

theorem chanLoop_sums (x : Extern) (g : Bitmaps) (a : Args) (todo i : Nat)
    (output : Nat → Int) (out ker_a : Nat) :
    (chanLoop x g a todo i output out ker_a).sums
      = (List.range todo).map (fun k => fallbackAcc g a (ker_a + k * kerStride a) (i + k)) := by
  induction todo generalizing i output out ker_a with
  | zero => simp [chanLoop]
  | succ n ih =>
    unfold chanLoop
    simp only []
    rw [ih, List.range_succ_eq_map, colLoop_ker_a]
    simp only [List.map_cons, List.map_map, fallbackAcc, Nat.zero_mul, Nat.add_zero]
    congr 1
    apply List.map_congr_left
    intro k _
    simp only [Function.comp, kerStride, Nat.succ_eq_add_one]
    have e1 : ker_a + 8 * (a.input_ch.val / 8) + k * (8 * (a.input_ch.val / 8))
        = ker_a + (k + 1) * (8 * (a.input_ch.val / 8)) := by ring
    have e2 : i + 1 + k = i + (k + 1) := by ring
    rw [e1, e2]

theorem chanLoop_events (x : Extern) (g : Bitmaps) (a : Args) (todo i : Nat)
    (output : Nat → Int) (out ker_a : Nat) :
    (chanLoop x g a todo i output out ker_a).events
      = (List.range todo).flatMap
          (fun k => chanEvents g a (ker_a + k * kerStride a) (i + k)) := by
  induction todo generalizing i output out ker_a with
  | zero => simp [chanLoop]
  | succ n ih =>
    unfold chanLoop
    simp only []
    rw [ih, List.range_succ_eq_map, colLoop_ker_a]
    simp only [List.flatMap_cons, List.flatMap_map, chanEvents, macEvents, fallbackAcc,
      Nat.zero_mul, Nat.add_zero, List.append_assoc, List.cons_append, List.nil_append]
    congr 5
    funext k
    simp only [Function.comp, kerStride, Nat.succ_eq_add_one]
    have e1 : ker_a + 8 * (a.input_ch.val / 8) + k * (8 * (a.input_ch.val / 8))
        = ker_a + (k + 1) * (8 * (a.input_ch.val / 8)) := by ring
    have e2 : i + 1 + k = i + (k + 1) := by ring
    rw [e1, e2]

theorem chanLoop_output (x : Extern) (g : Bitmaps) (a : Args) (todo i : Nat)
    (output : Nat → Int) (out ker_a : Nat) (j : Nat) :
    (chanLoop x g a todo i output out ker_a).output j
      = if out ≤ j ∧ j < out + todo then
          outByte x a (fallbackAcc g a (ker_a + (j - out) * kerStride a) (i + (j - out)))
            (i + (j - out))
        else output j := by
  induction todo generalizing i output out ker_a with
  | zero =>
    have h0 : ¬ (out ≤ j ∧ j < out + 0) := by omega
    rw [if_neg h0]
    simp [chanLoop]
  | succ n ih =>
    unfold chanLoop
    simp only []
    rw [ih, colLoop_ker_a]
    by_cases hj : j = out
    · subst hj
      have h1 : ¬ (j + 1 ≤ j ∧ j < j + 1 + n) := by omega
      have h2 : j ≤ j ∧ j < j + (n + 1) := by omega
      rw [if_neg h1, if_pos h2]
      simp [store, outByte, fallbackAcc]
    · by_cases hin : out ≤ j ∧ j < out + (n + 1)
      · have h1 : out + 1 ≤ j ∧ j < out + 1 + n := by omega
        rw [if_pos h1, if_pos hin]
        have e1 : ker_a + 8 * (a.input_ch.val / 8) + (j - (out + 1)) * kerStride a
            = ker_a + (j - out) * kerStride a := by
          have : j - out = (j - (out + 1)) + 1 := by omega
          rw [this, kerStride]; ring
        have e2 : i + 1 + (j - (out + 1)) = i + (j - out) := by omega
        rw [e1, e2]
      · have h1 : ¬ (out + 1 ≤ j ∧ j < out + 1 + n) := by omega
        rw [if_neg h1, if_neg hin]
        simp [store, hj]

/-! ## The kernel as a whole -/

theorem numElements_parity (a : Args) :
    numElements a % 2 = ((a.output_x.val * a.output_y.val : Nat) : Int) % 2 := by
  unfold numElements wrap32; omega

theorem numElements_of_lt (a : Args) (h : a.output_x.val * a.output_y.val < 2147483648) :
    numElements a = ((a.output_x.val * a.output_y.val : Nat) : Int) := by
  unfold numElements wrap32; omega

theorem convolve_reject (x : Extern) (g : Bitmaps) (a : Args) (s : State)
    (h : a.input_ch.val % 4 ≠ 0) :
    convolve_1x1_s8 x g a s = ⟨tinyengine_status.PARAM_NO_SUPPORT, s, []⟩ := by
  unfold convolve_1x1_s8
  rw [if_pos (Or.inl h)]

theorem convolve_odd_eq (x : Extern) (g : Bitmaps) (a : Args) (s : State)
    (h4 : a.input_ch.val % 4 = 0) (hodd : numElements a % 2 = 1) :
    convolve_1x1_s8 x g a s =
      ⟨tinyengine_status.STATE_SUCCESS,
        ⟨(chanLoop x g a a.output_ch.val 0 (vecRun x a s).output (vecRun x a s).out 0).output,
          residualBuf x a s,
          s.trace ++ (vecRun x a s).events ++ Event.triggerHigh ::
            (chanLoop x g a a.output_ch.val 0 (vecRun x a s).output (vecRun x a s).out 0).events⟩,
        (chanLoop x g a a.output_ch.val 0 (vecRun x a s).output (vecRun x a s).out 0).sums⟩ := by
  have hg : ¬ (a.input_ch.val % 4 ≠ 0 ∨ a.input_ch.val % 2 ≠ 0) := by omega
  unfold convolve_1x1_s8
  rw [if_neg hg, if_pos hodd]

theorem convolve_even_eq (x : Extern) (g : Bitmaps) (a : Args) (s : State)
    (h4 : a.input_ch.val % 4 = 0) (heven : numElements a % 2 = 0) :
    convolve_1x1_s8 x g a s =
      ⟨tinyengine_status.STATE_SUCCESS,
        ⟨(vecRun x a s).output, (vecRun x a s).runtime_buf,
          s.trace ++ (vecRun x a s).events⟩, []⟩ := by
  have hg : ¬ (a.input_ch.val % 4 ≠ 0 ∨ a.input_ch.val % 2 ≠ 0) := by omega
  have hodd2 : ¬ (numElements a % 2 = 1) := by omega
  unfold convolve_1x1_s8
  rw [if_neg hg, if_neg hodd2]

theorem convolve_odd (x : Extern) (g : Bitmaps) (a : Args) (s : State)
    (h4 : a.input_ch.val % 4 = 0) (hodd : numElements a % 2 = 1) :
    (convolve_1x1_s8 x g a s).status = tinyengine_status.STATE_SUCCESS ∧
    (convolve_1x1_s8 x g a s).sums
      = (List.range a.output_ch.val).map (fun c => fallbackAcc g a (c * kerStride a) c) ∧
    (convolve_1x1_s8 x g a s).state.trace
      = s.trace ++ (vecRun x a s).events ++ Event.triggerHigh ::
          (List.range a.output_ch.val).flatMap (fun c => chanEvents g a (c * kerStride a) c) ∧
    ∀ j, (convolve_1x1_s8 x g a s).state.output j
      = if (vecRun x a s).out ≤ j ∧ j < (vecRun x a s).out + a.output_ch.val then
          outByte x a (fallbackAcc g a ((j - (vecRun x a s).out) * kerStride a)
            (j - (vecRun x a s).out)) (j - (vecRun x a s).out)
        else (vecRun x a s).output j := by
  rw [convolve_odd_eq x g a s h4 hodd]
  refine ⟨rfl, ?_, ?_, ?_⟩
  · simp only [chanLoop_sums, Nat.zero_add]
  · simp only [chanLoop_events, Nat.zero_add]
  · intro j
    simp only [chanLoop_output, Nat.zero_add]

theorem fallbackAcc_eq (g : Bitmaps) (a : Args) (ker_a c : Nat) :
    fallbackAcc g a ker_a c
      = wrap32 (a.bias c + ∑ i in Finset.range (kerStride a),
          loopTerm g a.kernel a.input 0 ker_a 0 i) := by
  unfold fallbackAcc
  rw [colLoop_sum g a.kernel a.input _ _ 0 ker_a 0 (by norm_num) (wrap32_idem _),
    wrap32_add_wrap32]
  rfl

theorem kerStride_of_mul8 (a : Args) (h8 : a.input_ch.val % 8 = 0) :
    kerStride a = a.input_ch.val := by
  unfold kerStride; omega

theorem fallbackAcc_eq_maskedSum256 (g : Bitmaps) (a : Args) (c : Nat)
    (h8 : a.input_ch.val % 8 = 0) :
    fallbackAcc g a (c * kerStride a) c = maskedSum256 g a c := by
  rw [fallbackAcc_eq, kerStride_of_mul8 a h8]
  simp [maskedSum256, loopTerm, contribution]

theorem numElements_one (a : Args) (h1 : a.output_x.val * a.output_y.val = 1) :
    numElements a = 1 := by
  rw [numElements_of_lt a (by omega), h1]
  rfl

theorem vecPasses_one (a : Args) (h1 : a.output_x.val * a.output_y.val = 1) :
    vecPasses a = 0 := by
  unfold vecPasses
  rw [numElements_one a h1]
  rfl

theorem vecRun_one (x : Extern) (a : Args) (s : State)
    (h1 : a.output_x.val * a.output_y.val = 1) :
    vecRun x a s = ⟨s.output, s.runtime_buf, 0, []⟩ := by
  unfold vecRun
  rw [vecPasses_one a h1]
  rfl

theorem sums_get (x : Extern) (g : Bitmaps) (a : Args) (s : State)
    (h4 : a.input_ch.val % 4 = 0) (hodd : numElements a % 2 = 1)
    (c : Nat) (hc : c < a.output_ch.val) :
    (convolve_1x1_s8 x g a s).sums[c]? = some (fallbackAcc g a (c * kerStride a) c) := by
  rw [(convolve_odd x g a s h4 hodd).2.1, List.getElem?_map, List.getElem?_range hc]
  rfl

/-! ## Concrete inputs used to evaluate the model -/

/-- External routines that leave the buffers alone and requantize by the
identity; used only to run the kernel on concrete inputs. -/
def sampleExtern : Extern :=
  ⟨fun _ _ _ buf _ => buf, fun _ _ _ _ _ _ _ _ _ _ output out => (output, out),
    fun v _ _ => v⟩

/-- An empty initial state. -/
def sampleState : State := ⟨fun _ => 0, fun _ => 0, []⟩

/-- Eight input channels, two output channels, one position. -/
def sampleArgs : Args :=
  { input := fun j => (j : Int) + 1
    input_x := 1, input_y := 1, input_ch := 8
    kernel := fun j => if j < 8 then 2 else -3
    bias := fun c => 10 * (c : Int), output_shift := fun _ => 0, output_mult := fun _ => 0
    out_offset := 0, input_offset := 0
    out_activation_min := -128, out_activation_max := 127
    output_x := 1, output_y := 1, output_ch := 2 }

/-- Bitmaps with `IaPAM[0] = 0x05` and `toExecTable[0] = 0x06`. -/
def sampleBitmaps : Bitmaps := ⟨fun idx => if idx = 0 then 5 else 0,
  fun idx => if idx = 0 then 6 else 0⟩

theorem sext8_zero : sext8 0 = 0 := by unfold sext8; rfl

theorem sext8_one : sext8 1 = 1 := by unfold sext8; rfl

theorem wrap32_zero : wrap32 0 = 0 := by unfold wrap32; rfl

theorem numElements_mod_two (a : Args) : numElements a % 2 = 0 ∨ numElements a % 2 = 1 := by
  omega

theorem status_of_supported (x : Extern) (g : Bitmaps) (a : Args) (s : State)
    (h4 : a.input_ch.val % 4 = 0) :
    (convolve_1x1_s8 x g a s).status = tinyengine_status.STATE_SUCCESS := by
  rcases numElements_mod_two a with h | h
  · rw [convolve_even_eq x g a s h4 h]
  · rw [convolve_odd_eq x g a s h4 h]

/-- C2: the kernel returns `PARAM_NO_SUPPORT` exactly when `input_ch` is not a
multiple of 4, and `STATE_SUCCESS` exactly when it is, whatever the other
arguments, the bitmaps, the external routines and the initial state are. -/
theorem C2_status (x : Extern) (g : Bitmaps) (a : Args) (s : State) :
    ((convolve_1x1_s8 x g a s).status = tinyengine_status.PARAM_NO_SUPPORT
      ↔ a.input_ch.val % 4 ≠ 0) ∧
    ((convolve_1x1_s8 x g a s).status = tinyengine_status.STATE_SUCCESS
      ↔ a.input_ch.val % 4 = 0) := by
  by_cases h4 : a.input_ch.val % 4 = 0
  · have hs := status_of_supported x g a s h4
    rw [hs]
    simp [h4]
  · rw [convolve_reject x g a s h4]
    simp [h4]

/-- Five input channels (not a multiple of 4), two output channels. -/
def rejectArgs : Args :=
  { input := fun j => (j : Int)
    input_x := 1, input_y := 1, input_ch := 5
    kernel := fun _ => 1
    bias := fun _ => 7, output_shift := fun _ => 0, output_mult := fun _ => 0
    out_offset := 0, input_offset := 128
    out_activation_min := -128, out_activation_max := 127
    output_x := 1, output_y := 1, output_ch := 2 }

/-- C3: a call that returns `PARAM_NO_SUPPORT` leaves the state as it was: the
output region and the scratch buffer are unchanged and the event trace has
not grown (no message, no trigger edge); no accumulator was computed. -/
theorem C3_reject_no_effect (x : Extern) (g : Bitmaps) (a : Args) (s : State)
    (h : (convolve_1x1_s8 x g a s).status = tinyengine_status.PARAM_NO_SUPPORT) :
    (convolve_1x1_s8 x g a s).state = s ∧ (convolve_1x1_s8 x g a s).sums = [] := by
  by_cases h4 : a.input_ch.val % 4 = 0
  · rw [status_of_supported x g a s h4] at h
    exact absurd h (by decide)
  · rw [convolve_reject x g a s h4]
    exact ⟨rfl, rfl⟩

/-- C3, witness: the five-channel call is rejected and changes nothing. -/
theorem C3_reject_no_effect_witness :
    (convolve_1x1_s8 sampleExtern sampleBitmaps rejectArgs sampleState).status
      = tinyengine_status.PARAM_NO_SUPPORT ∧
    (convolve_1x1_s8 sampleExtern sampleBitmaps rejectArgs sampleState).state = sampleState ∧
    (convolve_1x1_s8 sampleExtern sampleBitmaps rejectArgs sampleState).sums = [] :=
  ⟨by decide, C3_reject_no_effect sampleExtern sampleBitmaps rejectArgs sampleState (by decide)⟩

/-! ## Event traces -/

/-- The message carried by an event: tag and payload of a `simpleserial_put`. -/
def Event.message : Event → Option (Char × List Nat)
  | Event.put tag data => some (tag, data)
  | _ => none

/-- The messages emitted on the reporting sink, in order. -/
def messages (tr : List Event) : List (Char × List Nat) := tr.filterMap Event.message

/-- The pair of messages reported for one raw accumulator. -/
def report (sum : Int) : List (Char × List Nat) := [('r', bytesOfInt32 sum), ('e', [0])]

/-- Events of the masked loops: bitmap reads and MACs only. -/
def Event.isMaskedWork : Event → Bool
  | Event.readIaPAM _ => true
  | Event.readToExec _ => true
  | Event.mac _ _ => true
  | _ => false

theorem messages_append (t1 t2 : List Event) :
    messages (t1 ++ t2) = messages t1 ++ messages t2 := by
  simp [messages]

theorem messages_of_maskedWork (tr : List Event) (h : ∀ e ∈ tr, e.isMaskedWork = true) :
    messages tr = [] := by
  induction tr with
  | nil => rfl
  | cons e t ih =>
    have he := h e (List.mem_cons_self e t)
    have ht := ih (fun e' he' => h e' (List.mem_cons_of_mem e he'))
    cases e <;> simp_all [messages, Event.message, Event.isMaskedWork]

theorem octetLoop_events_maskedWork (g : Bitmaps) (kernel input : Nat → Int)
    (input_set ker_a ip r : Nat) (sum : Int) :
    ∀ e ∈ (octetLoop g kernel input input_set ker_a ip r sum).2, e.isMaskedWork = true := by
  induction r generalizing sum with
  | zero => simp [octetLoop]
  | succ r ih =>
    unfold octetLoop
    intro e he
    split at he
    · simp only [List.mem_cons] at he
      rcases he with rfl | rfl | he
      · rfl
      · rfl
      · exact ih _ e he
    · split at he
      · simp only [List.mem_cons] at he
        rcases he with rfl | rfl | rfl | he
        · rfl
        · rfl
        · rfl
        · exact ih _ e he
      · simp only [List.mem_cons] at he
        rcases he with rfl | rfl | he
        · rfl
        · rfl
        · exact ih _ e he

theorem colLoop_events_maskedWork (g : Bitmaps) (kernel input : Nat → Int)
    (n : Nat) (sum : Int) (ip ker_a input_set : Nat) :
    ∀ e ∈ (colLoop g kernel input n sum ip ker_a input_set).2.2, e.isMaskedWork = true := by
  induction n generalizing sum ip ker_a input_set with
  | zero => simp [colLoop]
  | succ n ih =>
    unfold colLoop
    intro e he
    simp only [List.mem_append] at he
    rcases he with he | he
    · exact octetLoop_events_maskedWork g kernel input input_set ker_a ip 8 sum e he
    · exact ih _ _ _ _ e he

theorem messages_chanEvents (g : Bitmaps) (a : Args) (ker_a c : Nat) :
    messages (chanEvents g a ker_a c) = report (fallbackAcc g a ker_a c) := by
  have hm : messages (macEvents g a ker_a c) = [] :=
    messages_of_maskedWork _ (colLoop_events_maskedWork _ _ _ _ _ _ _ _)
  unfold chanEvents
  rw [messages_append, hm]
  rfl

theorem messages_flatMap_chanEvents (g : Bitmaps) (a : Args) (f : Nat → Nat) (l : List Nat) :
    messages (l.flatMap (fun c => chanEvents g a (f c) c))
      = (l.map (fun c => fallbackAcc g a (f c) c)).flatMap report := by
  induction l with
  | nil => rfl
  | cons c t ih =>
    simp only [List.flatMap_cons, List.map_cons, messages_append, ih, messages_chanEvents]

theorem vecLoop_events (x : Extern) (a : Args) (off : Int) (todo i : Nat)
    (output buf : Nat → Int) (out : Nat) :
    (vecLoop x a off todo i output buf out).events
      = (List.range' i todo).map Event.vecPass := by
  induction todo generalizing i output buf out with
  | zero => simp [vecLoop]
  | succ n ih =>
    unfold vecLoop
    simp only [ih, List.range'_succ, List.map_cons]

theorem vecRun_events (x : Extern) (a : Args) (s : State) :
    (vecRun x a s).events = (List.range (vecPasses a)).map Event.vecPass := by
  unfold vecRun
  rw [vecLoop_events, List.range_eq_range']

theorem messages_vecRun (x : Extern) (a : Args) (s : State) :
    messages (vecRun x a s).events = [] := by
  rw [vecRun_events]
  simp [messages, List.filterMap_map, Function.comp_def, Event.message]

theorem length_flatMap_report (l : List Int) : (l.flatMap report).length = 2 * l.length := by
  induction l with
  | nil => rfl
  | cons v t ih =>
    simp only [List.flatMap_cons, List.length_append, ih, List.length_cons, report,
      List.length_nil]
    omega

theorem vecPasses_of_lt (a : Args) (h : a.output_x.val * a.output_y.val < 2147483648) :
    vecPasses a = a.output_x.val * a.output_y.val / 2 := by
  unfold vecPasses
  rw [numElements_of_lt a h, Int.tdiv_eq_ediv (by omega) (by omega)]
  omega

theorem numElements_odd (a : Args) (h : (a.output_x.val * a.output_y.val) % 2 = 1) :
    numElements a % 2 = 1 := by
  rw [numElements_parity]; omega

theorem numElements_even (a : Args) (h : (a.output_x.val * a.output_y.val) % 2 = 0) :
    numElements a % 2 = 0 := by
  rw [numElements_parity]; omega

theorem supported_of_success (x : Extern) (g : Bitmaps) (a : Args) (s : State)
    (h : (convolve_1x1_s8 x g a s).status = tinyengine_status.STATE_SUCCESS) :
    a.input_ch.val % 4 = 0 := by
  by_cases h4 : a.input_ch.val % 4 = 0
  · exact h4
  · rw [convolve_reject x g a s h4] at h
    cases h

theorem messages_odd (x : Extern) (g : Bitmaps) (a : Args) (s : State)
    (h4 : a.input_ch.val % 4 = 0) (hodd : numElements a % 2 = 1) :
    messages (convolve_1x1_s8 x g a s).state.trace
      = messages s.trace ++ (convolve_1x1_s8 x g a s).sums.flatMap report := by
  obtain ⟨_, hsums, htr, _⟩ := convolve_odd x g a s h4 hodd
  rw [htr, hsums, messages_append, messages_append, messages_vecRun, List.append_nil]
  have ht : messages [Event.triggerHigh] = [] := rfl
  rw [← List.singleton_append, messages_append, ht, List.nil_append,
    messages_flatMap_chanEvents]

/-! ## The payload of the `'r'` message -/

theorem wrap32_range (v : Int) : -2147483648 ≤ wrap32 v ∧ wrap32 v < 2147483648 := by
  unfold wrap32; omega

theorem fallbackAcc_range (g : Bitmaps) (a : Args) (ker_a c : Nat) :
    -2147483648 ≤ fallbackAcc g a ker_a c ∧ fallbackAcc g a ker_a c < 2147483648 := by
  rw [fallbackAcc_eq]
  exact wrap32_range _

theorem sext8_of_range (v : Int) (h1 : -128 ≤ v) (h2 : v < 128) : sext8 v = v := by
  unfold sext8; omega

/-- The four bytes put in the `'r'` message are the base-256 digits of the
value modulo `2^32`, least significant first. -/
theorem bytesOfInt32_decode (v : Int) :
    ∃ b0 b1 b2 b3 : Nat, bytesOfInt32 v = [b0, b1, b2, b3] ∧
      b0 < 256 ∧ b1 < 256 ∧ b2 < 256 ∧ b3 < 256 ∧
      ((b0 + 256 * b1 + 65536 * b2 + 16777216 * b3 : Nat) : Int) = v % 4294967296 := by
  have hu : (((v % 4294967296).toNat : Nat) : Int) = v % 4294967296 :=
    Int.toNat_of_nonneg (Int.emod_nonneg _ (by norm_num))
  have hlt : (v % 4294967296).toNat < 4294967296 := by omega
  have hsum : (v % 4294967296).toNat % 256 + 256 * ((v % 4294967296).toNat / 256 % 256) +
      65536 * ((v % 4294967296).toNat / 65536 % 256) +
      16777216 * ((v % 4294967296).toNat / 16777216 % 256) = (v % 4294967296).toNat := by
    omega
  refine ⟨(v % 4294967296).toNat % 256, (v % 4294967296).toNat / 256 % 256,
    (v % 4294967296).toNat / 65536 % 256, (v % 4294967296).toNat / 16777216 % 256,
    rfl, Nat.mod_lt _ (by norm_num), Nat.mod_lt _ (by norm_num), Nat.mod_lt _ (by norm_num),
    Nat.mod_lt _ (by norm_num), ?_⟩
  rw [hsum, hu]

/-! ## C6 -/

/-- C6: in a successful call with an odd number of spatial positions, the
messages added to the reporting sink are exactly, channel by channel in
increasing order, `'r'` with the four bytes of the raw accumulator of the
channel (the value of `sum` when the MAC loop exits) followed by `'e'` with the
byte `0x00`: `2 * output_ch` messages, whatever the number of two-column passes
run before. The accumulator is an `int32_t` and its payload is four bytes
`b0 b1 b2 b3`, each below 256, with
`b0 + 2^8 b1 + 2^16 b2 + 2^24 b3 = sum mod 2^32` (little-endian, the byte order
of the Cortex-M4). -/
theorem C6_message_sequence (x : Extern) (g : Bitmaps) (a : Args) (s : State)
    (hs : (convolve_1x1_s8 x g a s).status = tinyengine_status.STATE_SUCCESS)
    (hodd : (a.output_x.val * a.output_y.val) % 2 = 1) :
    messages (convolve_1x1_s8 x g a s).state.trace
      = messages s.trace ++
        ((List.range a.output_ch.val).map
          (fun c => fallbackAcc g a (c * kerStride a) c)).flatMap
          (fun sum => [('r', bytesOfInt32 sum), ('e', [0])]) ∧
    (messages (convolve_1x1_s8 x g a s).state.trace).length
      = (messages s.trace).length + 2 * a.output_ch.val ∧
    (∀ sum : Int, (bytesOfInt32 sum).length = 4) ∧
    (convolve_1x1_s8 x g a s).sums
      = (List.range a.output_ch.val).map (fun c => fallbackAcc g a (c * kerStride a) c) ∧
    ∀ c, (-2147483648 ≤ fallbackAcc g a (c * kerStride a) c ∧
        fallbackAcc g a (c * kerStride a) c < 2147483648) ∧
      ∃ b0 b1 b2 b3 : Nat,
        bytesOfInt32 (fallbackAcc g a (c * kerStride a) c) = [b0, b1, b2, b3] ∧
        b0 < 256 ∧ b1 < 256 ∧ b2 < 256 ∧ b3 < 256 ∧
        ((b0 + 256 * b1 + 65536 * b2 + 16777216 * b3 : Nat) : Int)
          = fallbackAcc g a (c * kerStride a) c % 4294967296 := by
  have h4 := supported_of_success x g a s hs
  have ho := numElements_odd a hodd
  have hm := messages_odd x g a s h4 ho
  have hsums := (convolve_odd x g a s h4 ho).2.1
  rw [hsums] at hm
  refine ⟨hm, ?_, fun _ => rfl, hsums,
    fun c => ⟨fallbackAcc_range g a (c * kerStride a) c, bytesOfInt32_decode _⟩⟩
  rw [hm, List.length_append, length_flatMap_report, List.length_map, List.length_range]

/-- Three positions, eight input channels, one output channel; the first
position holds zeros and the last position ones. -/
def threePosArgs : Args :=
  { input := fun j => if j < 16 then 0 else 1
    input_x := 3, input_y := 1, input_ch := 8
    kernel := fun _ => 1
    bias := fun _ => 0, output_shift := fun _ => 0, output_mult := fun _ => 0
    out_offset := 0, input_offset := 0
    out_activation_min := -128, out_activation_max := 127
    output_x := 3, output_y := 1, output_ch := 1 }

/-- Bitmaps with every bit of `IaPAM` set and `toExecTable` clear. -/
def allImportant : Bitmaps := ⟨fun _ => 255, fun _ => 0⟩

/-- The sample arguments with three positions: one two-column pass precedes
the residual position. -/
def threePosTwoChanArgs : Args := { sampleArgs with input_x := 3, output_x := 3 }

theorem sample_maskedSum256_0 : maskedSum256 sampleBitmaps threePosTwoChanArgs 0 = 12 := by
  have h8 : threePosTwoChanArgs.input_ch.val = 8 := by decide
  unfold maskedSum256
  rw [h8]
  simp +decide [Finset.sum_range_succ, contribution, executes, sampleBitmaps, sampleArgs,
    threePosTwoChanArgs, sext8_of_range]
  exact wrap32_of_range _ (by norm_num) (by norm_num)

theorem sample_maskedSum256_1 : maskedSum256 sampleBitmaps threePosTwoChanArgs 1 = -8 := by
  have h8 : threePosTwoChanArgs.input_ch.val = 8 := by decide
  unfold maskedSum256
  rw [h8]
  simp +decide [Finset.sum_range_succ, contribution, executes, sampleBitmaps, sampleArgs,
    threePosTwoChanArgs, sext8_of_range]
  exact wrap32_of_range _ (by norm_num) (by norm_num)

/-- C6, witness: a successful call with three positions and two output
channels, whose accumulators are `12` and `-8`: the messages are `'r'`
`0C 00 00 00`, `'e'` `00`, `'r'` `F8 FF FF FF`, `'e'` `00`. -/
theorem C6_message_sequence_witness :
    ((convolve_1x1_s8 sampleExtern sampleBitmaps threePosTwoChanArgs sampleState).status
        = tinyengine_status.STATE_SUCCESS ∧
      (threePosTwoChanArgs.output_x.val * threePosTwoChanArgs.output_y.val) % 2 = 1) ∧
    (messages
        (convolve_1x1_s8 sampleExtern sampleBitmaps threePosTwoChanArgs sampleState).state.trace
      = messages sampleState.trace ++
        ((List.range threePosTwoChanArgs.output_ch.val).map
          (fun c => fallbackAcc sampleBitmaps threePosTwoChanArgs
            (c * kerStride threePosTwoChanArgs) c)).flatMap
          (fun sum => [('r', bytesOfInt32 sum), ('e', [0])]) ∧
    (messages
        (convolve_1x1_s8 sampleExtern sampleBitmaps threePosTwoChanArgs sampleState).state.trace).length
      = (messages sampleState.trace).length + 2 * threePosTwoChanArgs.output_ch.val ∧
    (∀ sum : Int, (bytesOfInt32 sum).length = 4) ∧
    (convolve_1x1_s8 sampleExtern sampleBitmaps threePosTwoChanArgs sampleState).sums
      = (List.range threePosTwoChanArgs.output_ch.val).map
          (fun c => fallbackAcc sampleBitmaps threePosTwoChanArgs
            (c * kerStride threePosTwoChanArgs) c) ∧
    ∀ c, (-2147483648 ≤ fallbackAcc sampleBitmaps threePosTwoChanArgs
          (c * kerStride threePosTwoChanArgs) c ∧
        fallbackAcc sampleBitmaps threePosTwoChanArgs
          (c * kerStride threePosTwoChanArgs) c < 2147483648) ∧
      ∃ b0 b1 b2 b3 : Nat,
        bytesOfInt32 (fallbackAcc sampleBitmaps threePosTwoChanArgs
          (c * kerStride threePosTwoChanArgs) c) = [b0, b1, b2, b3] ∧
        b0 < 256 ∧ b1 < 256 ∧ b2 < 256 ∧ b3 < 256 ∧
        ((b0 + 256 * b1 + 65536 * b2 + 16777216 * b3 : Nat) : Int)
          = fallbackAcc sampleBitmaps threePosTwoChanArgs
              (c * kerStride threePosTwoChanArgs) c % 4294967296) ∧
    messages
        (convolve_1x1_s8 sampleExtern sampleBitmaps threePosTwoChanArgs sampleState).state.trace
      = [('r', [12, 0, 0, 0]), ('e', [0]), ('r', [248, 255, 255, 255]), ('e', [0])] := by
  have hst := status_of_supported sampleExtern sampleBitmaps threePosTwoChanArgs sampleState
    (by decide)
  have hc := C6_message_sequence sampleExtern sampleBitmaps threePosTwoChanArgs sampleState hst
    (by decide)
  refine ⟨⟨hst, by decide⟩, hc, ?_⟩
  have h8 : threePosTwoChanArgs.input_ch.val % 8 = 0 := by decide
  have hoc : threePosTwoChanArgs.output_ch.val = 2 := by decide
  have h0 := fallbackAcc_eq_maskedSum256 sampleBitmaps threePosTwoChanArgs 0 h8
  have h1 := fallbackAcc_eq_maskedSum256 sampleBitmaps threePosTwoChanArgs 1 h8
  rw [sample_maskedSum256_0] at h0
  rw [sample_maskedSum256_1] at h1
  rw [hc.1, hoc]
  simp only [List.range_succ, List.range_zero, List.nil_append, List.map_cons, List.map_nil,
    List.map_append, List.singleton_append, h0, h1]
  decide

/-! ## C7 -/

/-- Two positions, eight input channels, one output channel. -/
def twoPosArgs : Args :=
  { input := fun j => (j : Int)
    input_x := 2, input_y := 1, input_ch := 8
    kernel := fun _ => 1
    bias := fun _ => 0, output_shift := fun _ => 0, output_mult := fun _ => 0
    out_offset := 0, input_offset := 0
    out_activation_min := -128, out_activation_max := 127
    output_x := 2, output_y := 1, output_ch := 1 }

/-- Two positions, five input channels: an even count on a rejected call. -/
def evenRejectArgs : Args :=
  { twoPosArgs with input_ch := 5 }

/-- C7 (amended): in every call that passes the parameter check and whose
number of spatial positions `output_x*output_y` is even (zero included) and
below `2^31`, the masked scalar path does not run: the events added to the
trace are the `(output_x*output_y)/2` two-column passes, in order, and nothing
else (no `'r'`/`'e'` message, no trigger edge, no bitmap read, no MAC), and no
accumulator is produced. -/
theorem C7_even_no_fallback (x : Extern) (g : Bitmaps) (a : Args) (s : State)
    (h4 : a.input_ch.val % 4 = 0)
    (heven : (a.output_x.val * a.output_y.val) % 2 = 0)
    (hlt : a.output_x.val * a.output_y.val < 2147483648) :
    (convolve_1x1_s8 x g a s).state.trace
      = s.trace ++ (List.range (a.output_x.val * a.output_y.val / 2)).map Event.vecPass ∧
    (convolve_1x1_s8 x g a s).sums = [] ∧
    messages (convolve_1x1_s8 x g a s).state.trace = messages s.trace := by
  have he := numElements_even a heven
  rw [convolve_even_eq x g a s h4 he]
  refine ⟨?_, rfl, ?_⟩
  · simp only [vecRun_events, vecPasses_of_lt a hlt]
  · simp only [messages_append, messages_vecRun, List.append_nil]

/-- C7, witness: two positions, one two-column pass. -/
theorem C7_even_no_fallback_witness :
    (twoPosArgs.input_ch.val % 4 = 0 ∧
      (twoPosArgs.output_x.val * twoPosArgs.output_y.val) % 2 = 0 ∧
      twoPosArgs.output_x.val * twoPosArgs.output_y.val < 2147483648) ∧
    ((convolve_1x1_s8 sampleExtern allImportant twoPosArgs sampleState).state.trace
      = sampleState.trace ++
        (List.range (twoPosArgs.output_x.val * twoPosArgs.output_y.val / 2)).map
          Event.vecPass ∧
    (convolve_1x1_s8 sampleExtern allImportant twoPosArgs sampleState).sums = [] ∧
    messages (convolve_1x1_s8 sampleExtern allImportant twoPosArgs sampleState).state.trace
      = messages sampleState.trace) :=
  ⟨⟨by decide, by decide, by decide⟩,
    C7_even_no_fallback sampleExtern allImportant twoPosArgs sampleState (by decide) (by decide)
      (by decide)⟩

/-- C7 as stated fails on the pass count: a call with two positions and
`input_ch = 5` is rejected by the parameter check and runs no two-column pass,
where the claim has `(output_x*output_y)/2 = 1`. -/
theorem C7_counterexample :
    (evenRejectArgs.output_x.val * evenRejectArgs.output_y.val) % 2 = 0 ∧
    evenRejectArgs.output_x.val * evenRejectArgs.output_y.val / 2 = 1 ∧
    (convolve_1x1_s8 sampleExtern allImportant evenRejectArgs sampleState).status
      = tinyengine_status.PARAM_NO_SUPPORT ∧
    (convolve_1x1_s8 sampleExtern allImportant evenRejectArgs sampleState).state.trace = [] ∧
    ((convolve_1x1_s8 sampleExtern allImportant evenRejectArgs sampleState).state.trace.filter
      (fun e => match e with
        | Event.vecPass _ => true
        | _ => false)).length = 0 := by
  rw [convolve_reject _ _ _ _ (by decide)]
  exact ⟨by decide, by decide, rfl, rfl, rfl⟩

/-! ## Counting executed MACs -/

/-- One if the loops execute the MAC on `kernel[k]` and `input[j]` at distance
`b` from the start pointers, zero otherwise. -/
def macInd (g : Bitmaps) (input_set ker_a ip k j b : Nat) : Nat :=
  if executes g ((input_set + b / 8) % 256) b = true ∧ ker_a + b = k ∧ ip + b = j then 1 else 0

theorem octetLoop_macCount (g : Bitmaps) (kernel input : Nat → Int)
    (input_set ker_a ip k j : Nat) (hs : input_set < 256) (r : Nat) (hr : r ≤ 8) (sum : Int) :
    List.count (Event.mac k j) (octetLoop g kernel input input_set ker_a ip r sum).2
      = ∑ b in Finset.range r, macInd g input_set ker_a ip k j b := by
  induction r generalizing sum with
  | zero => simp [octetLoop]
  | succ r ih =>
    have hr8 : r < 8 := by omega
    have hidx : (input_set + r / 8) % 256 = input_set := by omega
    have hmod : r % 8 = r := by omega
    rw [Finset.sum_range_succ]
    unfold octetLoop
    by_cases h1 : ldrb g.IaPAM input_set &&& (1 <<< r) ≠ 0
    · rw [if_pos h1]
      have hb := (bit_test_iff g.IaPAM input_set r hr8).1 h1
      simp only [List.count_cons, ih (by omega)]
      simp [macInd, executes, hidx, hmod, hb]
    · rw [if_neg h1]
      have hb : (g.IaPAM input_set).testBit r = false := by
        cases hc : (g.IaPAM input_set).testBit r
        · rfl
        · exact absurd ((bit_test_iff g.IaPAM input_set r hr8).2 hc) h1
      by_cases h2 : ldrb g.toExecTable input_set &&& (1 <<< r) ≠ 0
      · rw [if_pos h2]
        have hb2 := (bit_test_iff g.toExecTable input_set r hr8).1 h2
        simp only [List.count_cons, ih (by omega)]
        simp [macInd, executes, hidx, hmod, hb, hb2]
      · rw [if_neg h2]
        have hb2 : (g.toExecTable input_set).testBit r = false := by
          cases hc : (g.toExecTable input_set).testBit r
          · rfl
          · exact absurd ((bit_test_iff g.toExecTable input_set r hr8).2 hc) h2
        simp only [List.count_cons, ih (by omega)]
        simp [macInd, executes, hidx, hmod, hb, hb2]

theorem colLoop_macCount (g : Bitmaps) (kernel input : Nat → Int) (k j n : Nat) (sum : Int)
    (ip ker_a input_set : Nat) (hs : input_set < 256) :
    List.count (Event.mac k j) (colLoop g kernel input n sum ip ker_a input_set).2.2
      = ∑ i in Finset.range (8 * n), macInd g input_set ker_a ip k j i := by
  induction n generalizing sum ip ker_a input_set with
  | zero => simp [colLoop]
  | succ n ih =>
    unfold colLoop
    simp only [List.count_append]
    rw [ih _ _ _ _ (Nat.mod_lt _ (by norm_num)),
      octetLoop_macCount g kernel input input_set ker_a ip k j hs 8 (le_refl 8)]
    have h8 : 8 * (n + 1) = 8 + 8 * n := by ring
    rw [h8, Finset.sum_range_add]
    congr 1
    apply Finset.sum_congr rfl
    intro i _
    have e1 : ((input_set + 1) % 256 + i / 8) % 256 = (input_set + (8 + i) / 8) % 256 := by
      omega
    have e2 : (8 + i) % 8 = i % 8 := by omega
    have e3 : ker_a + 8 + i = ker_a + (8 + i) := by ring
    have e4 : ip + 8 + i = ip + (8 + i) := by ring
    simp only [macInd, executes, e1, e2, e3, e4]

theorem chanEvents_macCount (g : Bitmaps) (a : Args) (ker_a c k j : Nat) :
    List.count (Event.mac k j) (chanEvents g a ker_a c)
      = ∑ i in Finset.range (kerStride a), macInd g 0 ker_a 0 k j i := by
  unfold chanEvents macEvents
  rw [List.count_append, colLoop_macCount g a.kernel a.input k j _ _ 0 ker_a 0 (by norm_num)]
  simp [List.count_cons, kerStride]

theorem flatMap_chanEvents_macCount (g : Bitmaps) (a : Args) (k j n : Nat) :
    List.count (Event.mac k j)
        ((List.range n).flatMap (fun c => chanEvents g a (c * kerStride a) c))
      = ∑ c in Finset.range n, ∑ i in Finset.range (kerStride a),
          macInd g 0 (c * kerStride a) 0 k j i := by
  induction n with
  | zero => simp
  | succ n ih =>
    rw [List.range_succ, List.flatMap_append, List.count_append, ih, Finset.sum_range_succ]
    simp [chanEvents_macCount]

theorem trace_macCount (x : Extern) (g : Bitmaps) (a : Args) (s : State)
    (h4 : a.input_ch.val % 4 = 0) (hodd : numElements a % 2 = 1) (k j : Nat) :
    List.count (Event.mac k j) (convolve_1x1_s8 x g a s).state.trace
      = List.count (Event.mac k j) s.trace +
        ∑ c in Finset.range a.output_ch.val, ∑ i in Finset.range (kerStride a),
          macInd g 0 (c * kerStride a) 0 k j i := by
  rw [(convolve_odd x g a s h4 hodd).2.2.1, List.count_append, List.count_append,
    vecRun_events, List.count_cons, flatMap_chanEvents_macCount]
  have hv : List.count (Event.mac k j) ((List.range (vecPasses a)).map Event.vecPass) = 0 := by
    rw [List.count_eq_zero]
    intro hmem
    rcases List.mem_map.1 hmem with ⟨_, _, h⟩
    cases h
  rw [hv]
  simp

/-! ## C8 -/

theorem macCount_important (g : Bitmaps) (a : Args) (c i : Nat)
    (h8 : a.input_ch.val % 8 = 0) (hc : c < a.output_ch.val) (hi : i < a.input_ch.val)
    (hbit : executes g (i / 8 % 256) i = true) :
    ∑ c' in Finset.range a.output_ch.val, ∑ i' in Finset.range (kerStride a),
        macInd g 0 (c' * kerStride a) 0 (c * a.input_ch.val + i) i i' = 1 := by
  rw [kerStride_of_mul8 a h8]
  rw [Finset.sum_eq_single c]
  · rw [Finset.sum_eq_single i]
    · simp [macInd, hbit]
    · intro b _ hb
      simp [macInd, hb]
    · intro h
      exact absurd (Finset.mem_range.2 hi) h
  · intro c' _ hc'
    apply Finset.sum_eq_zero
    intro b _
    have hne : ¬ (c' * a.input_ch.val + b = c * a.input_ch.val + i ∧ 0 + b = i) := by
      rintro ⟨e1, e2⟩
      have e3 : b = i := by omega
      subst e3
      have e4 : c' * a.input_ch.val = c * a.input_ch.val := by omega
      exact hc' (Nat.eq_of_mul_eq_mul_right (by omega) e4)
    simp only [macInd]
    rw [if_neg (fun h => hne h.2)]
  · intro h
    exact absurd (Finset.mem_range.2 hc) h

theorem executes_of_clear (g : Bitmaps) (a : Args)
    (hz : ∀ idx, idx < a.input_ch.val / 8 → idx < 256 →
      g.IaPAM idx = 0 ∧ g.toExecTable idx = 0)
    (i : Nat) (hi : i < kerStride a) : executes g ((0 + i / 8) % 256) i = false := by
  have hidx : (0 + i / 8) % 256 < a.input_ch.val / 8 := by
    unfold kerStride at hi
    omega
  obtain ⟨h1, h2⟩ := hz _ hidx (Nat.mod_lt _ (by norm_num))
  unfold executes
  rw [h1, h2]
  simp

theorem fallbackAcc_of_clear (g : Bitmaps) (a : Args)
    (hz : ∀ idx, idx < a.input_ch.val / 8 → idx < 256 →
      g.IaPAM idx = 0 ∧ g.toExecTable idx = 0)
    (ker_a c : Nat) : fallbackAcc g a ker_a c = wrap32 (a.bias c) := by
  rw [fallbackAcc_eq, Finset.sum_eq_zero, add_zero]
  intro i hi
  unfold loopTerm
  rw [executes_of_clear g a hz i (Finset.mem_range.1 hi)]
  simp

/-- C10: for every supported `input_ch` (32 included) and an odd number of
positions, if every bitmap byte the kernel consults (indices below
`input_ch div 8` and below 256) is zero in both `IaPAM` and `toExecTable`, then whatever the
weights and inputs are, no MAC is executed, the accumulator of every output
channel `c` is `bias[c]` (an `int32_t`), and the `'r'` messages carry the four
bytes of `bias[c]`: bytes `b0 b1 b2 b3`, each below 256, with
`b0 + 2^8 b1 + 2^16 b2 + 2^24 b3 = bias[c] mod 2^32`. -/
theorem C10_all_clear_gives_bias (x : Extern) (g : Bitmaps) (a : Args) (s : State)
    (h4 : a.input_ch.val % 4 = 0)
    (hodd : (a.output_x.val * a.output_y.val) % 2 = 1)
    (hz : ∀ idx, idx < a.input_ch.val / 8 → idx < 256 →
      g.IaPAM idx = 0 ∧ g.toExecTable idx = 0)
    (hb : ∀ c, c < a.output_ch.val → -2147483648 ≤ a.bias c ∧ a.bias c < 2147483648) :
    (convolve_1x1_s8 x g a s).sums = (List.range a.output_ch.val).map a.bias ∧
    messages (convolve_1x1_s8 x g a s).state.trace
      = messages s.trace ++ ((List.range a.output_ch.val).map a.bias).flatMap
          (fun sum => [('r', bytesOfInt32 sum), ('e', [0])]) ∧
    (∀ k j, List.count (Event.mac k j) (convolve_1x1_s8 x g a s).state.trace
      = List.count (Event.mac k j) s.trace) ∧
    ∀ c, c < a.output_ch.val →
      fallbackAcc g a (c * kerStride a) c = a.bias c ∧
      ∃ b0 b1 b2 b3 : Nat, bytesOfInt32 (a.bias c) = [b0, b1, b2, b3] ∧
        b0 < 256 ∧ b1 < 256 ∧ b2 < 256 ∧ b3 < 256 ∧
        ((b0 + 256 * b1 + 65536 * b2 + 16777216 * b3 : Nat) : Int)
          = a.bias c % 4294967296 := by
  have ho := numElements_odd a hodd
  have hacc : ∀ c, c < a.output_ch.val → fallbackAcc g a (c * kerStride a) c = a.bias c := by
    intro c hc
    have hr := hb c hc
    rw [fallbackAcc_of_clear g a hz, wrap32_of_range _ hr.1 hr.2]
  have hsums : (convolve_1x1_s8 x g a s).sums = (List.range a.output_ch.val).map a.bias := by
    rw [(convolve_odd x g a s h4 ho).2.1]
    apply List.map_congr_left
    intro c hc
    exact hacc c (List.mem_range.1 hc)
  refine ⟨hsums, ?_, ?_, ?_⟩
  · have hm := messages_odd x g a s h4 ho
    rw [hsums] at hm
    exact hm
  · intro k j
    rw [trace_macCount x g a s h4 ho, Finset.sum_eq_zero, add_zero]
    intro c _
    apply Finset.sum_eq_zero
    intro i hi
    unfold macInd
    rw [executes_of_clear g a hz i (Finset.mem_range.1 hi)]
    simp
  · intro c hc
    exact ⟨hacc c hc, bytesOfInt32_decode _⟩

/-- Thirty-two input channels, five output channels, one position, with the
offsets and bounds of layer 0 of the generated model. -/
def args32 : Args :=
  { input := fun j => (j : Int) - 16
    input_x := 1, input_y := 1, input_ch := 32
    kernel := fun j => (j : Int) % 7 - 3
    bias := fun c => 1000 * (c : Int) - 2000
    output_shift := fun _ => 0, output_mult := fun _ => 0
    out_offset := -128, input_offset := 128
    out_activation_min := -128, out_activation_max := 127
    output_x := 1, output_y := 1, output_ch := 5 }

/-- Bitmaps with every byte zero. -/
def clearBitmaps : Bitmaps := ⟨fun _ => 0, fun _ => 0⟩

/-- C10, witness: the 32-channel call with cleared bitmaps; the biases are
`-2000, -1000, 0, 1000, 2000` and the payloads are their little-endian bytes. -/
theorem C10_all_clear_gives_bias_witness :
    (args32.input_ch.val % 4 = 0 ∧ (args32.output_x.val * args32.output_y.val) % 2 = 1 ∧
      clearBitmaps.IaPAM 3 = 0 ∧ clearBitmaps.toExecTable 3 = 0 ∧
      -2147483648 ≤ args32.bias 4 ∧ args32.bias 4 < 2147483648) ∧
    ((convolve_1x1_s8 sampleExtern clearBitmaps args32 sampleState).sums
      = (List.range args32.output_ch.val).map args32.bias ∧
    messages (convolve_1x1_s8 sampleExtern clearBitmaps args32 sampleState).state.trace
      = messages sampleState.trace ++ ((List.range args32.output_ch.val).map args32.bias).flatMap
          (fun sum => [('r', bytesOfInt32 sum), ('e', [0])]) ∧
    (∀ k j, List.count (Event.mac k j)
        (convolve_1x1_s8 sampleExtern clearBitmaps args32 sampleState).state.trace
      = List.count (Event.mac k j) sampleState.trace) ∧
    ∀ c, c < args32.output_ch.val →
      fallbackAcc clearBitmaps args32 (c * kerStride args32) c = args32.bias c ∧
      ∃ b0 b1 b2 b3 : Nat, bytesOfInt32 (args32.bias c) = [b0, b1, b2, b3] ∧
        b0 < 256 ∧ b1 < 256 ∧ b2 < 256 ∧ b3 < 256 ∧
        ((b0 + 256 * b1 + 65536 * b2 + 16777216 * b3 : Nat) : Int)
          = args32.bias c % 4294967296) ∧
    messages (convolve_1x1_s8 sampleExtern clearBitmaps args32 sampleState).state.trace
      = [('r', [48, 248, 255, 255]), ('e', [0]), ('r', [24, 252, 255, 255]), ('e', [0]),
         ('r', [0, 0, 0, 0]), ('e', [0]), ('r', [232, 3, 0, 0]), ('e', [0]),
         ('r', [208, 7, 0, 0]), ('e', [0])] := by
  have hc := C10_all_clear_gives_bias sampleExtern clearBitmaps args32 sampleState
    (by decide) (by decide) (fun _ _ _ => ⟨rfl, rfl⟩)
    (by
      intro c hc
      have hc5 : c < 5 := hc
      simp only [args32]
      omega)
  refine ⟨⟨by decide, by decide, rfl, rfl, by decide, by decide⟩, hc, ?_⟩
  rw [hc.2.1]
  decide

/-! ## C4, C5: the reference computations of the specification -/

/-- The accumulator of the full-precision unmasked reference convolution of
one position, in the words of the specification: `bias[c]` plus the sum over all
`i` of `kernel[c*input_ch+i] * (input[i] + input_offset)`. -/
def referenceAcc (a : Args) (c : Nat) : Int :=
  wrap32 (a.bias c + ∑ i in Finset.range a.input_ch.val,
    sext8 (a.kernel (c * a.input_ch.val + i)) * (sext8 (a.input i) + a.input_offset))

/-- The masked accumulator of the final residual position, in the words of
the specification: the input bytes are `input[(n-1)*input_ch + i]`. -/
def residualAcc (g : Bitmaps) (a : Args) (c : Nat) : Int :=
  wrap32 (a.bias c + ∑ i in Finset.range a.input_ch.val,
    if executes g (i / 8 % 256) i then
      sext8 (a.kernel (c * a.input_ch.val + i)) *
        sext8 (a.input ((a.output_x.val * a.output_y.val - 1) * a.input_ch.val + i))
    else 0)

/-- Thirty-two input channels, one output channel, one position; weights 1,
inputs 0, `input_offset = 128`. -/
def offsetArgs : Args :=
  { input := fun _ => 0
    input_x := 1, input_y := 1, input_ch := 32
    kernel := fun _ => 1
    bias := fun _ => 0, output_shift := fun _ => 0, output_mult := fun _ => 0
    out_offset := 0, input_offset := 128
    out_activation_min := -128, out_activation_max := 127
    output_x := 1, output_y := 1, output_ch := 1 }

theorem offsetArgs_maskedSum256 : maskedSum256 allImportant offsetArgs 0 = 0 := by
  unfold maskedSum256
  rw [Finset.sum_eq_zero]
  · simp [offsetArgs, wrap32_zero]
  · intro i _
    simp [contribution, offsetArgs, sext8_zero]

theorem offsetArgs_referenceAcc : referenceAcc offsetArgs 0 = 4096 := by
  unfold referenceAcc
  have hterm : ∀ i ∈ Finset.range offsetArgs.input_ch.val,
      sext8 (offsetArgs.kernel (0 * offsetArgs.input_ch.val + i)) *
        (sext8 (offsetArgs.input i) + offsetArgs.input_offset) = 128 := by
    intro i _
    simp [offsetArgs, sext8_zero, sext8_one]
  rw [Finset.sum_congr rfl hterm, Finset.sum_const, Finset.card_range]
  have h32 : offsetArgs.input_ch.val = 32 := by decide
  rw [h32]
  have hb : offsetArgs.bias 0 = 0 := rfl
  rw [hb]
  exact wrap32_of_range _ (by norm_num) (by norm_num)

/-- C4, evaluation at a failing input: one position, 32 input channels, every
importance bit set, weights 1, inputs 0, `input_offset = 128`, identity
requantization. The kernel accumulates `0` and stores `0`; the reference
convolution accumulates `32 * 128 = 4096` and stores `127`. -/
theorem C4_input_offset_ignored :
    (convolve_1x1_s8 sampleExtern allImportant offsetArgs sampleState).sums = [0] ∧
    (convolve_1x1_s8 sampleExtern allImportant offsetArgs sampleState).state.output 0 = 0 ∧
    referenceAcc offsetArgs 0 = 4096 ∧
    outByte sampleExtern offsetArgs (referenceAcc offsetArgs 0) 0 = 127 := by
  have h1 : offsetArgs.output_x.val * offsetArgs.output_y.val = 1 := by decide
  have h8 : offsetArgs.input_ch.val % 8 = 0 := by decide
  have h4 : offsetArgs.input_ch.val % 4 = 0 := by decide
  have hodd : numElements offsetArgs % 2 = 1 := numElements_odd offsetArgs (by decide)
  have hacc : fallbackAcc allImportant offsetArgs (0 * kerStride offsetArgs) 0 = 0 := by
    rw [fallbackAcc_eq_maskedSum256 allImportant offsetArgs 0 h8, offsetArgs_maskedSum256]
  have hout : ∀ v : Int, -128 ≤ v → v < 2147483648 →
      outByte sampleExtern offsetArgs v 0 = min v 127 := by
    intro v hv1 hv2
    have hw : wrap32 (v + 0) = v := by
      rw [add_zero]; exact wrap32_of_range v (by omega) hv2
    simp only [outByte, sampleExtern, offsetArgs, hw]
    rw [max_eq_left hv1]
    exact sext8_of_range _ (by omega) (by omega)
  obtain ⟨_, hsums, _, hbyte⟩ := convolve_odd sampleExtern allImportant offsetArgs sampleState h4 hodd
  refine ⟨?_, ?_, offsetArgs_referenceAcc, ?_⟩
  · rw [hsums]
    have hoc : offsetArgs.output_ch.val = 1 := by decide
    rw [hoc]
    simp only [List.range_succ, List.range_zero, List.nil_append, List.map_cons, List.map_nil,
      hacc]
  · rw [hbyte 0, vecRun_one sampleExtern offsetArgs sampleState h1]
    have hin : (0 : Nat) ≤ 0 ∧ 0 < 0 + offsetArgs.output_ch.val := by decide
    simp only [if_pos hin, Nat.sub_self, hacc]
    rw [hout 0 (by norm_num) (by norm_num)]
    rfl
  · rw [offsetArgs_referenceAcc, hout 4096 (by norm_num) (by norm_num)]
    rfl

theorem allImportant_executes (idx i : Nat) : executes allImportant idx i = true := by
  have h : (255 : Nat).testBit (i % 8) = true := by
    have hlt : i % 8 < 8 := Nat.mod_lt _ (by norm_num)
    interval_cases (i % 8) <;> decide
  simp [executes, allImportant, h]

theorem threePosArgs_maskedSum256 : maskedSum256 allImportant threePosArgs 0 = 0 := by
  unfold maskedSum256
  rw [Finset.sum_eq_zero]
  · simp [threePosArgs, wrap32_zero]
  · intro i hi
    have hi8 : i < 8 := Finset.mem_range.1 hi
    have hlt : i < 16 := by omega
    simp [contribution, threePosArgs, hlt, sext8_zero]

theorem threePosArgs_residualAcc : residualAcc allImportant threePosArgs 0 = 8 := by
  unfold residualAcc
  have hterm : ∀ i ∈ Finset.range threePosArgs.input_ch.val,
      (if executes allImportant (i / 8 % 256) i then
        sext8 (threePosArgs.kernel (0 * threePosArgs.input_ch.val + i)) *
          sext8 (threePosArgs.input
            ((threePosArgs.output_x.val * threePosArgs.output_y.val - 1) *
              threePosArgs.input_ch.val + i))
      else 0) = 1 := by
    intro i _
    have e : (threePosArgs.output_x.val * threePosArgs.output_y.val - 1) *
        threePosArgs.input_ch.val = 16 := by decide
    have hin : threePosArgs.input (16 + i) = 1 := by simp [threePosArgs]
    have hk : threePosArgs.kernel (0 * threePosArgs.input_ch.val + i) = 1 := rfl
    rw [if_pos (allImportant_executes _ _), e, hin, hk, sext8_one]
    rfl
  rw [Finset.sum_congr rfl hterm, Finset.sum_const, Finset.card_range]
  have h8 : threePosArgs.input_ch.val = 8 := by decide
  rw [h8]
  have hb : threePosArgs.bias 0 = 0 := rfl
  rw [hb]
  exact wrap32_of_range _ (by norm_num) (by norm_num)

/-- C5, evaluation at a failing input: three positions of eight channels, every
importance bit set, weights 1, the first two positions zero and the last
position one. The kernel multiplies `input[0..7]` (the MAC on `input[3]` is
executed, none on `input[19]`) and accumulates `0`; the masked sum over the
last position is `8`. -/
theorem C5_residual_reads_first_position :
    (threePosArgs.output_x.val * threePosArgs.output_y.val = 3 ∧
      threePosArgs.input_ch.val = 8) ∧
    (convolve_1x1_s8 sampleExtern allImportant threePosArgs sampleState).sums = [0] ∧
    residualAcc allImportant threePosArgs 0 = 8 ∧
    List.count (Event.mac 3 3)
      (convolve_1x1_s8 sampleExtern allImportant threePosArgs sampleState).state.trace = 1 ∧
    List.count (Event.mac 3 19)
      (convolve_1x1_s8 sampleExtern allImportant threePosArgs sampleState).state.trace = 0 := by
  have h8 : threePosArgs.input_ch.val % 8 = 0 := by decide
  have h4 : threePosArgs.input_ch.val % 4 = 0 := by decide
  have hodd : numElements threePosArgs % 2 = 1 := numElements_odd threePosArgs (by decide)
  have hacc : fallbackAcc allImportant threePosArgs (0 * kerStride threePosArgs) 0 = 0 := by
    rw [fallbackAcc_eq_maskedSum256 allImportant threePosArgs 0 h8, threePosArgs_maskedSum256]
  refine ⟨⟨by decide, by decide⟩, ?_, threePosArgs_residualAcc, ?_, ?_⟩
  · rw [(convolve_odd sampleExtern allImportant threePosArgs sampleState h4 hodd).2.1]
    have hoc : threePosArgs.output_ch.val = 1 := by decide
    rw [hoc]
    simp only [List.range_succ, List.range_zero, List.nil_append, List.map_cons, List.map_nil,
      hacc]
  · rw [trace_macCount sampleExtern allImportant threePosArgs sampleState h4 hodd]
    have hm := macCount_important allImportant threePosArgs 0 3 h8 (by decide) (by decide)
      (allImportant_executes _ _)
    have e : 0 * threePosArgs.input_ch.val + 3 = 3 := by decide
    rw [e] at hm
    rw [hm]
    rfl
  · rw [trace_macCount sampleExtern allImportant threePosArgs sampleState h4 hodd,
      Finset.sum_eq_zero]
    · rfl
    · intro c _
      apply Finset.sum_eq_zero
      intro i hi
      have hi8 : i < 8 := by
        have := Finset.mem_range.1 hi
        have hk : kerStride threePosArgs = 8 := by decide
        omega
      unfold macInd
      rw [if_neg]
      intro h
      omega


/-! ## C20: the generated model -/

/-- The arguments of the call of `convolve_1x1_s8` in `invoke_inf` (layer 1 of
`genModel.c`): `convolve_1x1_s8(&buffer0[32],1,1,5,weight1,bias1,shift1,
multiplier1,0,128,-128,127,&buffer0[0],1,1,2,sbuf)`. The tables `weight1`,
`bias1`, `shift1`, `multiplier1` and the contents of `buffer0` are parameters. -/
def layer1Args (buffer0 weight1 bias1 shift1 multiplier1 : Nat → Int) : Args :=
  { input := fun j => buffer0 (32 + j)
    input_x := 1, input_y := 1, input_ch := 5
    kernel := weight1
    bias := bias1, output_shift := shift1, output_mult := multiplier1
    out_offset := 0, input_offset := 128
    out_activation_min := -128, out_activation_max := 127
    output_x := 1, output_y := 1, output_ch := 2 }

/-- C20: the call of `convolve_1x1_s8` made by `invoke_inf` (layer 1,
`input_ch = 5`) returns `PARAM_NO_SUPPORT` and leaves the output region
`buffer0`, the scratch buffer and the event trace as they were, whatever the
buffers, tables, bitmaps and external routines are. -/
theorem C20_layer1_rejected (x : Extern) (g : Bitmaps)
    (buffer0 weight1 bias1 shift1 multiplier1 sbuf : Nat → Int) (tr : List Event) :
    convolve_1x1_s8 x g (layer1Args buffer0 weight1 bias1 shift1 multiplier1)
        ⟨buffer0, sbuf, tr⟩
      = ⟨tinyengine_status.PARAM_NO_SUPPORT, ⟨buffer0, sbuf, tr⟩, []⟩ := by
  have h5 : (layer1Args buffer0 weight1 bias1 shift1 multiplier1).input_ch.val = 5 := rfl
  exact convolve_reject x g _ _ (by rw [h5]; decide)

/-! ## Events added by a call -/

/-- The events a call adds to the trace. -/
def emitted (x : Extern) (g : Bitmaps) (a : Args) (s : State) : List Event :=
  (convolve_1x1_s8 x g a s).state.trace.drop s.trace.length

theorem emitted_reject (x : Extern) (g : Bitmaps) (a : Args) (s : State)
    (h : a.input_ch.val % 4 ≠ 0) : emitted x g a s = [] := by
  unfold emitted
  rw [convolve_reject x g a s h]
  simp

theorem emitted_even (x : Extern) (g : Bitmaps) (a : Args) (s : State)
    (h4 : a.input_ch.val % 4 = 0) (heven : numElements a % 2 = 0) :
    emitted x g a s = (List.range (vecPasses a)).map Event.vecPass := by
  unfold emitted
  rw [convolve_even_eq x g a s h4 heven]
  simp [vecRun_events]

theorem emitted_odd (x : Extern) (g : Bitmaps) (a : Args) (s : State)
    (h4 : a.input_ch.val % 4 = 0) (hodd : numElements a % 2 = 1) :
    emitted x g a s = (List.range (vecPasses a)).map Event.vecPass ++
      Event.triggerHigh ::
        (List.range a.output_ch.val).flatMap (fun c => chanEvents g a (c * kerStride a) c) := by
  unfold emitted
  rw [(convolve_odd x g a s h4 hodd).2.2.1, vecRun_events, List.append_assoc]
  simp

theorem trace_eq_append_emitted (x : Extern) (g : Bitmaps) (a : Args) (s : State) :
    (convolve_1x1_s8 x g a s).state.trace = s.trace ++ emitted x g a s := by
  by_cases h4 : a.input_ch.val % 4 = 0
  · rcases numElements_mod_two a with h | h
    · rw [emitted_even x g a s h4 h, convolve_even_eq x g a s h4 h, vecRun_events]
    · rw [emitted_odd x g a s h4 h, (convolve_odd x g a s h4 h).2.2.1, vecRun_events,
        List.append_assoc]
  · rw [emitted_reject x g a s h4, convolve_reject x g a s h4]
    simp


/-! ## C16: bitmap reads -/

/-- The bitmap index an event reads, if it is a bitmap read. -/
def Event.readIndex : Event → Option Nat
  | Event.readIaPAM idx => some idx
  | Event.readToExec idx => some idx
  | _ => none

/-- Whether every bitmap read of a trace is inside bitmaps of the given
lengths (in bytes). -/
def readsInBounds (lenIaPAM lenToExec : Nat) (tr : List Event) : Bool :=
  tr.all (fun e => match e with
    | Event.readIaPAM idx => decide (idx < lenIaPAM)
    | Event.readToExec idx => decide (idx < lenToExec)
    | _ => true)

/-- The kernel run on bitmaps of `lenIaPAM` and `lenToExec` bytes: `none` when
some bitmap load of the call falls outside its array (undefined in C). -/
def convolve_1x1_s8_checked (x : Extern) (g : Bitmaps) (lenIaPAM lenToExec : Nat)
    (a : Args) (s : State) : Option Result :=
  if readsInBounds lenIaPAM lenToExec (emitted x g a s) then some (convolve_1x1_s8 x g a s)
  else none

theorem octetLoop_readIndex (g : Bitmaps) (kernel input : Nat → Int)
    (input_set ker_a ip r : Nat) (sum : Int) :
    ∀ e ∈ (octetLoop g kernel input input_set ker_a ip r sum).2,
      ∀ idx, e.readIndex = some idx → idx = input_set := by
  induction r generalizing sum with
  | zero => simp [octetLoop]
  | succ r ih =>
    unfold octetLoop
    intro e he idx hidx
    split at he
    · simp only [List.mem_cons] at he
      rcases he with rfl | rfl | he
      · simp only [Event.readIndex, Option.some.injEq] at hidx; exact hidx.symm
      · simp [Event.readIndex] at hidx
      · exact ih _ e he idx hidx
    · split at he
      · simp only [List.mem_cons] at he
        rcases he with rfl | rfl | rfl | he
        · simp only [Event.readIndex, Option.some.injEq] at hidx; exact hidx.symm
        · simp only [Event.readIndex, Option.some.injEq] at hidx; exact hidx.symm
        · simp [Event.readIndex] at hidx
        · exact ih _ e he idx hidx
      · simp only [List.mem_cons] at he
        rcases he with rfl | rfl | he
        · simp only [Event.readIndex, Option.some.injEq] at hidx; exact hidx.symm
        · simp only [Event.readIndex, Option.some.injEq] at hidx; exact hidx.symm
        · exact ih _ e he idx hidx

theorem colLoop_readIndex (g : Bitmaps) (kernel input : Nat → Int)
    (n : Nat) (sum : Int) (ip ker_a input_set : Nat) :
    ∀ e ∈ (colLoop g kernel input n sum ip ker_a input_set).2.2,
      ∀ idx, e.readIndex = some idx → ∃ k, k < n ∧ idx = (input_set + k) % 256 ∨
        (k = 0 ∧ 0 < n ∧ idx = input_set) := by
  induction n generalizing sum ip ker_a input_set with
  | zero => simp [colLoop]
  | succ n ih =>
    unfold colLoop
    intro e he idx hidx
    simp only [List.mem_append] at he
    rcases he with he | he
    · exact ⟨0, Or.inr ⟨rfl, Nat.succ_pos n,
        octetLoop_readIndex g kernel input input_set ker_a ip 8 sum e he idx hidx⟩⟩
    · obtain ⟨k, hk⟩ := ih _ _ _ _ e he idx hidx
      rcases hk with ⟨hk1, hk2⟩ | ⟨_, hk1, hk2⟩
      · exact ⟨k + 1, Or.inl ⟨by omega, by omega⟩⟩
      · exact ⟨1, Or.inl ⟨by omega, by omega⟩⟩

theorem chanEvents_readIndex (g : Bitmaps) (a : Args) (ker_a c : Nat) :
    ∀ e ∈ chanEvents g a ker_a c, ∀ idx, e.readIndex = some idx →
      idx < a.input_ch.val / 8 := by
  intro e he idx hidx
  unfold chanEvents at he
  rcases List.mem_append.1 he with he | he
  · obtain ⟨k, hk⟩ := colLoop_readIndex g a.kernel a.input _ _ 0 ker_a 0 e he idx hidx
    rcases hk with ⟨hk1, hk2⟩ | ⟨_, hk1, hk2⟩
    · omega
    · omega
  · simp only [List.mem_cons, List.mem_singleton, List.not_mem_nil, or_false] at he
    rcases he with rfl | rfl | rfl <;> simp [Event.readIndex] at hidx

theorem emitted_readIndex (x : Extern) (g : Bitmaps) (a : Args) (s : State) :
    ∀ e ∈ emitted x g a s, ∀ idx, e.readIndex = some idx → idx < a.input_ch.val / 8 := by
  intro e he idx hidx
  have hvec : ∀ e ∈ (List.range (vecPasses a)).map Event.vecPass, e.readIndex = none := by
    intro e' he'
    obtain ⟨i, _, rfl⟩ := List.mem_map.1 he'
    rfl
  by_cases h4 : a.input_ch.val % 4 = 0
  · rcases numElements_mod_two a with h | h
    · rw [emitted_even x g a s h4 h] at he
      rw [hvec e he] at hidx
      cases hidx
    · rw [emitted_odd x g a s h4 h] at he
      rcases List.mem_append.1 he with he | he
      · rw [hvec e he] at hidx
        cases hidx
      · rcases List.mem_cons.1 he with rfl | he
        · simp [Event.readIndex] at hidx
        · obtain ⟨c, _, hc⟩ := List.mem_flatMap.1 he
          exact chanEvents_readIndex g a _ c e hc idx hidx
  · rw [emitted_reject x g a s h4] at he
    simp at he

/-- C16: every index at which a call reads `IaPAM` or `toExecTable` is strictly
below `input_ch div 8`, for every `input_ch` and `output_ch`; hence on bitmaps
holding at least `input_ch div 8` bytes each (4 bytes for `input_ch = 32`) the
out-of-bounds outcome of the checked kernel does not occur. -/
theorem C16_bitmap_reads_in_bounds (x : Extern) (g : Bitmaps) (a : Args) (s : State)
    (lenIaPAM lenToExec : Nat)
    (hI : a.input_ch.val / 8 ≤ lenIaPAM) (hT : a.input_ch.val / 8 ≤ lenToExec) :
    (∀ idx, Event.readIaPAM idx ∈ emitted x g a s → idx < a.input_ch.val / 8) ∧
    (∀ idx, Event.readToExec idx ∈ emitted x g a s → idx < a.input_ch.val / 8) ∧
    convolve_1x1_s8_checked x g lenIaPAM lenToExec a s = some (convolve_1x1_s8 x g a s) := by
  have hr := emitted_readIndex x g a s
  refine ⟨fun idx h => hr _ h idx rfl, fun idx h => hr _ h idx rfl, ?_⟩
  unfold convolve_1x1_s8_checked
  rw [if_pos]
  unfold readsInBounds
  rw [List.all_eq_true]
  intro e he
  cases e with
  | readIaPAM idx =>
    have := hr _ he idx rfl
    simp only [decide_eq_true_eq]
    omega
  | readToExec idx =>
    have := hr _ he idx rfl
    simp only [decide_eq_true_eq]
    omega
  | _ => rfl

/-- C16, witness: the 32-channel call on 4-byte bitmaps. -/
theorem C16_bitmap_reads_in_bounds_witness :
    (args32.input_ch.val / 8 ≤ 4 ∧ args32.input_ch.val / 8 ≤ 4) ∧
    ((∀ idx, Event.readIaPAM idx ∈ emitted sampleExtern sampleBitmaps args32 sampleState →
        idx < args32.input_ch.val / 8) ∧
    (∀ idx, Event.readToExec idx ∈ emitted sampleExtern sampleBitmaps args32 sampleState →
        idx < args32.input_ch.val / 8) ∧
    convolve_1x1_s8_checked sampleExtern sampleBitmaps 4 4 args32 sampleState
      = some (convolve_1x1_s8 sampleExtern sampleBitmaps args32 sampleState)) :=
  ⟨⟨by decide, by decide⟩,
    C16_bitmap_reads_in_bounds sampleExtern sampleBitmaps args32 sampleState 4 4
      (by decide) (by decide)⟩


/-! ## C18: bitmap bytes beyond the consulted ones -/

theorem octetLoop_congr (g g' : Bitmaps) (kernel input : Nat → Int)
    (input_set ker_a ip : Nat)
    (h1 : g.IaPAM input_set = g'.IaPAM input_set)
    (h2 : g.toExecTable input_set = g'.toExecTable input_set) (r : Nat) (sum : Int) :
    octetLoop g kernel input input_set ker_a ip r sum
      = octetLoop g' kernel input input_set ker_a ip r sum := by
  induction r generalizing sum with
  | zero => rfl
  | succ r ih =>
    rw [octetLoop, octetLoop]
    simp only [ldrb, h1, h2, ih]

theorem colLoop_congr (g g' : Bitmaps) (kernel input : Nat → Int) (n : Nat) (sum : Int)
    (ip ker_a input_set : Nat) (hs : input_set < 256)
    (h : ∀ k, k < n → g.IaPAM ((input_set + k) % 256) = g'.IaPAM ((input_set + k) % 256) ∧
      g.toExecTable ((input_set + k) % 256) = g'.toExecTable ((input_set + k) % 256)) :
    colLoop g kernel input n sum ip ker_a input_set
      = colLoop g' kernel input n sum ip ker_a input_set := by
  induction n generalizing sum ip ker_a input_set with
  | zero => rfl
  | succ n ih =>
    have h0 := h 0 (Nat.succ_pos n)
    have e0 : (input_set + 0) % 256 = input_set := by omega
    rw [e0] at h0
    rw [colLoop, colLoop, octetLoop_congr g g' kernel input input_set ker_a ip h0.1 h0.2]
    have hn : ∀ k, k < n →
        g.IaPAM (((input_set + 1) % 256 + k) % 256)
          = g'.IaPAM (((input_set + 1) % 256 + k) % 256) ∧
        g.toExecTable (((input_set + 1) % 256 + k) % 256)
          = g'.toExecTable (((input_set + 1) % 256 + k) % 256) := by
      intro k hk
      have e : ((input_set + 1) % 256 + k) % 256 = (input_set + (k + 1)) % 256 := by omega
      rw [e]
      exact h (k + 1) (by omega)
    simp only [ih _ _ _ _ (Nat.mod_lt _ (by norm_num)) hn]

theorem chanLoop_congr (x : Extern) (g g' : Bitmaps) (a : Args)
    (h : ∀ idx, idx < a.input_ch.val / 8 →
      g.IaPAM idx = g'.IaPAM idx ∧ g.toExecTable idx = g'.toExecTable idx)
    (todo i : Nat) (output : Nat → Int) (out ker_a : Nat) :
    chanLoop x g a todo i output out ker_a = chanLoop x g' a todo i output out ker_a := by
  have hk : ∀ k, k < a.input_ch.val / 8 →
      g.IaPAM ((0 + k) % 256) = g'.IaPAM ((0 + k) % 256) ∧
      g.toExecTable ((0 + k) % 256) = g'.toExecTable ((0 + k) % 256) := by
    intro k hk
    exact h _ (by omega)
  induction todo generalizing i output out ker_a with
  | zero => rfl
  | succ n ih =>
    rw [chanLoop, chanLoop]
    simp only [colLoop_congr g g' a.kernel a.input _ _ 0 _ 0 (by norm_num) hk, ih]

/-- C18: every output channel starts its octet counter at 0 and consults only
the bitmap bytes at indices below `input_ch div 8`; two calls that differ
only in bytes of `IaPAM` or `toExecTable` at indices at or beyond
`input_ch div 8` (bytes 4..19 of the 20-byte table for `input_ch = 32`) return
the same status, accumulators, event trace (so the same messages) and output
region. -/
theorem C18_unread_bitmap_bytes (x : Extern) (g g' : Bitmaps) (a : Args) (s : State)
    (h : ∀ idx, idx < a.input_ch.val / 8 →
      g.IaPAM idx = g'.IaPAM idx ∧ g.toExecTable idx = g'.toExecTable idx) :
    convolve_1x1_s8 x g a s = convolve_1x1_s8 x g' a s := by
  by_cases h4 : a.input_ch.val % 4 = 0
  · rcases numElements_mod_two a with he | ho
    · rw [convolve_even_eq x g a s h4 he, convolve_even_eq x g' a s h4 he]
    · rw [convolve_odd_eq x g a s h4 ho, convolve_odd_eq x g' a s h4 ho,
        chanLoop_congr x g g' a h]
  · rw [convolve_reject x g a s h4, convolve_reject x g' a s h4]

/-- Bitmaps that agree with `sampleBitmaps` on byte 0 and hold `0xFF` in every
other byte. -/
def paddedBitmaps : Bitmaps := ⟨fun idx => if idx = 0 then 5 else 255,
  fun idx => if idx = 0 then 6 else 255⟩

/-- C18, witness: the eight-channel sample call consults byte 0 only. -/
theorem C18_unread_bitmap_bytes_witness :
    (sampleBitmaps.IaPAM 0 = paddedBitmaps.IaPAM 0 ∧
      sampleBitmaps.toExecTable 0 = paddedBitmaps.toExecTable 0 ∧
      sampleBitmaps.toExecTable 1 ≠ paddedBitmaps.toExecTable 1) ∧
    convolve_1x1_s8 sampleExtern sampleBitmaps sampleArgs sampleState
      = convolve_1x1_s8 sampleExtern paddedBitmaps sampleArgs sampleState :=
  ⟨⟨rfl, rfl, by decide⟩,
    C18_unread_bitmap_bytes sampleExtern sampleBitmaps paddedBitmaps sampleArgs sampleState
      (by
        intro idx hidx
        have h0 : idx = 0 := by
          have h1 : sampleArgs.input_ch.val / 8 = 1 := by decide
          omega
        subst h0
        exact ⟨rfl, rfl⟩)⟩


/-! ## C17: the assembly loop and the C loop beside it -/

/-- The commented-out C loop of lines 202-212, `for (input_index = 0;
input_index < 8; ++input_index)`, with `todo` iterations left starting at
`input_index`: importance test, then `toExecTable` test, then
`sum = ker_a[input_index] * ip[input_index] + sum`. -/
def cLoop (g : Bitmaps) (kernel input : Nat → Int) (input_set ker_a ip : Nat) :
    Nat → Nat → Int → Int
  | 0, _, sum => sum
  | todo + 1, input_index, sum =>
    if ldrb g.IaPAM input_set &&& (1 <<< input_index) ≠ 0 then
      cLoop g kernel input input_set ker_a ip todo (input_index + 1)
        (wrap32 (sext8 (kernel (ker_a + input_index)) * sext8 (input (ip + input_index)) + sum))
    else if ldrb g.toExecTable input_set &&& (1 <<< input_index) ≠ 0 then
      cLoop g kernel input input_set ker_a ip todo (input_index + 1)
        (wrap32 (sext8 (kernel (ker_a + input_index)) * sext8 (input (ip + input_index)) + sum))
    else
      cLoop g kernel input input_set ker_a ip todo (input_index + 1) sum

theorem cLoop_sum (g : Bitmaps) (kernel input : Nat → Int) (input_set ker_a ip : Nat)
    (hs : input_set < 256) (todo input_index : Nat) (h8 : input_index + todo ≤ 8)
    (sum : Int) (hsum : wrap32 sum = sum) :
    cLoop g kernel input input_set ker_a ip todo input_index sum
      = wrap32 (sum + ∑ j in Finset.range todo,
          loopTerm g kernel input input_set ker_a ip (input_index + j)) := by
  induction todo generalizing input_index sum with
  | zero => simp [cLoop, hsum]
  | succ n ih =>
    have hr8 : input_index < 8 := by omega
    have hidx : (input_set + input_index / 8) % 256 = input_set := by omega
    have hmod : input_index % 8 = input_index := by omega
    have hshift : ∀ j, input_index + 1 + j = input_index + (j + 1) := by intro j; omega
    rw [Finset.sum_range_succ']
    simp only [Nat.add_zero]
    unfold cLoop
    by_cases h1 : ldrb g.IaPAM input_set &&& (1 <<< input_index) ≠ 0
    · rw [if_pos h1]
      have hb := (bit_test_iff g.IaPAM input_set input_index hr8).1 h1
      rw [ih (input_index + 1) (by omega) _ (wrap32_idem _), wrap32_add_wrap32]
      simp only [hshift]
      have ht : loopTerm g kernel input input_set ker_a ip input_index
          = sext8 (kernel (ker_a + input_index)) * sext8 (input (ip + input_index)) := by
        simp only [loopTerm, executes, hidx, hmod, hb, Bool.true_or, if_true]
      rw [ht]
      congr 1; ring
    · rw [if_neg h1]
      have hb : (g.IaPAM input_set).testBit input_index = false := by
        cases hc : (g.IaPAM input_set).testBit input_index
        · rfl
        · exact absurd ((bit_test_iff g.IaPAM input_set input_index hr8).2 hc) h1
      by_cases h2 : ldrb g.toExecTable input_set &&& (1 <<< input_index) ≠ 0
      · rw [if_pos h2]
        have hb2 := (bit_test_iff g.toExecTable input_set input_index hr8).1 h2
        rw [ih (input_index + 1) (by omega) _ (wrap32_idem _), wrap32_add_wrap32]
        simp only [hshift]
        have ht : loopTerm g kernel input input_set ker_a ip input_index
            = sext8 (kernel (ker_a + input_index)) * sext8 (input (ip + input_index)) := by
          simp only [loopTerm, executes, hidx, hmod, hb, hb2, Bool.false_or, if_true]
        rw [ht]
        congr 1; ring
      · rw [if_neg h2]
        have hb2 : (g.toExecTable input_set).testBit input_index = false := by
          cases hc : (g.toExecTable input_set).testBit input_index
          · rfl
          · exact absurd ((bit_test_iff g.toExecTable input_set input_index hr8).2 hc) h2
        rw [ih (input_index + 1) (by omega) _ hsum]
        simp only [hshift]
        have ht : loopTerm g kernel input input_set ker_a ip input_index = 0 := by
          simp [loopTerm, executes, hidx, hmod, hb, hb2]
        rw [ht, add_zero]

/-- C17: for every 32-bit starting sum, every pair of bitmap bytes and all
weight and input bytes, the assembly loop (bits 7 down to 0, `smlabb`) and the
C loop beside it (bits 0 up to 7) leave the same accumulator. -/
theorem C17_asm_equals_c_loop (g : Bitmaps) (kernel input : Nat → Int)
    (input_set ker_a ip : Nat) (sum : Int)
    (hs : input_set < 256)
    (hsum : -2147483648 ≤ sum ∧ sum < 2147483648) :
    (octetLoop g kernel input input_set ker_a ip 8 sum).1
      = cLoop g kernel input input_set ker_a ip 8 0 sum := by
  have hw : wrap32 sum = sum := wrap32_of_range sum hsum.1 hsum.2
  rw [octetLoop_sum g kernel input input_set ker_a ip hs 8 (le_refl 8) sum hw,
    cLoop_sum g kernel input input_set ker_a ip hs 8 0 (le_refl 8) sum hw]
  simp only [Nat.zero_add]

/-- C17, witness: octet 0 of the sample call, starting from 10. -/
theorem C17_asm_equals_c_loop_witness :
    ((0 : Nat) < 256 ∧ (-2147483648 : Int) ≤ 10 ∧ (10 : Int) < 2147483648) ∧
    (octetLoop sampleBitmaps sampleArgs.kernel sampleArgs.input 0 8 0 8 10).1
      = cLoop sampleBitmaps sampleArgs.kernel sampleArgs.input 0 8 0 8 0 10 :=
  ⟨⟨by decide, by decide, by decide⟩,
    C17_asm_equals_c_loop sampleBitmaps sampleArgs.kernel sampleArgs.input 0 8 0 10
      (by decide) ⟨by decide, by decide⟩⟩


/-! ## C12, C13: requantization, offset, clamp, narrowing -/

theorem stored_byte (x : Extern) (g : Bitmaps) (a : Args) (s : State)
    (h4 : a.input_ch.val % 4 = 0) (hodd : numElements a % 2 = 1)
    (c : Nat) (hc : c < a.output_ch.val) :
    (convolve_1x1_s8 x g a s).state.output ((vecRun x a s).out + c)
      = outByte x a (fallbackAcc g a (c * kerStride a) c) c := by
  rw [(convolve_odd x g a s h4 hodd).2.2.2]
  have hin : (vecRun x a s).out ≤ (vecRun x a s).out + c ∧
      (vecRun x a s).out + c < (vecRun x a s).out + a.output_ch.val := by omega
  rw [if_pos hin, Nat.add_sub_cancel_left]

theorem outByte_clamp (x : Extern) (a : Args) (sum : Int) (c : Nat)
    (hb : -128 ≤ a.out_activation_min ∧ a.out_activation_min ≤ a.out_activation_max ∧
      a.out_activation_max ≤ 127) :
    outByte x a sum c
      = min (max (wrap32 (x.arm_nn_requantize sum (wrap32 (a.output_mult c))
          (wrap32 (a.output_shift c)) + a.out_offset)) a.out_activation_min)
          a.out_activation_max := by
  unfold outByte
  apply sext8_of_range
  · exact le_min (le_trans hb.1 (le_max_right _ _)) (le_trans hb.1 hb.2.1)
  · exact lt_of_le_of_lt (min_le_right _ _) (by omega)

/-- C12 (amended): with `-128 <= out_activation_min <= out_activation_max <= 127`,
the byte stored for channel `c` of the residual position is
`min(max(t, out_activation_min), out_activation_max)` where `t` is the 32-bit sum
`r + out_offset` of the requantization result `r` and the output offset; it lies
in `[out_activation_min, out_activation_max]`, the narrowing to 8 bits loses
nothing, and `t` is `r + out_offset` itself whenever that sum is representable
in 32 bits. -/
theorem C12_stored_byte_clamped (x : Extern) (g : Bitmaps) (a : Args) (s : State)
    (h4 : a.input_ch.val % 4 = 0)
    (hodd : (a.output_x.val * a.output_y.val) % 2 = 1)
    (c : Nat) (hc : c < a.output_ch.val)
    (hb : -128 ≤ a.out_activation_min ∧ a.out_activation_min ≤ a.out_activation_max ∧
      a.out_activation_max ≤ 127) :
    (convolve_1x1_s8 x g a s).state.output ((vecRun x a s).out + c)
      = min (max (wrap32 (x.arm_nn_requantize (fallbackAcc g a (c * kerStride a) c)
          (wrap32 (a.output_mult c)) (wrap32 (a.output_shift c)) + a.out_offset))
          a.out_activation_min) a.out_activation_max ∧
    a.out_activation_min ≤ (convolve_1x1_s8 x g a s).state.output ((vecRun x a s).out + c) ∧
    (convolve_1x1_s8 x g a s).state.output ((vecRun x a s).out + c) ≤ a.out_activation_max ∧
    (-2147483648 ≤ x.arm_nn_requantize (fallbackAcc g a (c * kerStride a) c)
          (wrap32 (a.output_mult c)) (wrap32 (a.output_shift c)) + a.out_offset ∧
      x.arm_nn_requantize (fallbackAcc g a (c * kerStride a) c)
          (wrap32 (a.output_mult c)) (wrap32 (a.output_shift c)) + a.out_offset < 2147483648 →
      (convolve_1x1_s8 x g a s).state.output ((vecRun x a s).out + c)
        = min (max (x.arm_nn_requantize (fallbackAcc g a (c * kerStride a) c)
            (wrap32 (a.output_mult c)) (wrap32 (a.output_shift c)) + a.out_offset)
            a.out_activation_min) a.out_activation_max) := by
  have hst := stored_byte x g a s h4 (numElements_odd a hodd) c hc
  rw [outByte_clamp x a _ c hb] at hst
  rw [hst]
  refine ⟨rfl, ?_, min_le_right _ _, ?_⟩
  · exact le_min (le_max_right _ _) hb.2.1
  · intro hr
    rw [wrap32_of_range _ hr.1 hr.2]


/-- C12, witness: channel 1 of the sample call. -/
theorem C12_stored_byte_clamped_witness :
    (sampleArgs.input_ch.val % 4 = 0 ∧
      (sampleArgs.output_x.val * sampleArgs.output_y.val) % 2 = 1 ∧
      1 < sampleArgs.output_ch.val ∧
      -128 ≤ sampleArgs.out_activation_min ∧
      sampleArgs.out_activation_min ≤ sampleArgs.out_activation_max ∧
      sampleArgs.out_activation_max ≤ 127) ∧
    ((convolve_1x1_s8 sampleExtern sampleBitmaps sampleArgs sampleState).state.output
        ((vecRun sampleExtern sampleArgs sampleState).out + 1)
      = min (max (wrap32 (sampleExtern.arm_nn_requantize
          (fallbackAcc sampleBitmaps sampleArgs (1 * kerStride sampleArgs) 1)
          (wrap32 (sampleArgs.output_mult 1)) (wrap32 (sampleArgs.output_shift 1)) +
            sampleArgs.out_offset))
          sampleArgs.out_activation_min) sampleArgs.out_activation_max ∧
    sampleArgs.out_activation_min ≤
      (convolve_1x1_s8 sampleExtern sampleBitmaps sampleArgs sampleState).state.output
        ((vecRun sampleExtern sampleArgs sampleState).out + 1) ∧
    (convolve_1x1_s8 sampleExtern sampleBitmaps sampleArgs sampleState).state.output
        ((vecRun sampleExtern sampleArgs sampleState).out + 1) ≤ sampleArgs.out_activation_max ∧
    (-2147483648 ≤ sampleExtern.arm_nn_requantize
          (fallbackAcc sampleBitmaps sampleArgs (1 * kerStride sampleArgs) 1)
          (wrap32 (sampleArgs.output_mult 1)) (wrap32 (sampleArgs.output_shift 1)) +
            sampleArgs.out_offset ∧
      sampleExtern.arm_nn_requantize
          (fallbackAcc sampleBitmaps sampleArgs (1 * kerStride sampleArgs) 1)
          (wrap32 (sampleArgs.output_mult 1)) (wrap32 (sampleArgs.output_shift 1)) +
            sampleArgs.out_offset < 2147483648 →
      (convolve_1x1_s8 sampleExtern sampleBitmaps sampleArgs sampleState).state.output
          ((vecRun sampleExtern sampleArgs sampleState).out + 1)
        = min (max (sampleExtern.arm_nn_requantize
            (fallbackAcc sampleBitmaps sampleArgs (1 * kerStride sampleArgs) 1)
            (wrap32 (sampleArgs.output_mult 1)) (wrap32 (sampleArgs.output_shift 1)) +
              sampleArgs.out_offset)
            sampleArgs.out_activation_min) sampleArgs.out_activation_max)) :=
  ⟨⟨by decide, by decide, by decide, by decide, by decide, by decide⟩,
    C12_stored_byte_clamped sampleExtern sampleBitmaps sampleArgs sampleState
      (by decide) (by decide) 1 (by decide) ⟨by decide, by decide, by decide⟩⟩

/-- External routines whose requantization returns `INT32_MAX`. -/
def saturatedExtern : Extern :=
  ⟨fun _ _ _ buf _ => buf, fun _ _ _ _ _ _ _ _ _ _ output out => (output, out),
    fun _ _ _ => 2147483647⟩

/-- The sample arguments with `out_offset = 1`. -/
def offsetOneArgs : Args := { sampleArgs with out_offset := 1 }

theorem wrap32_int_max_succ : wrap32 (2147483647 + 1) = -2147483648 := by
  unfold wrap32; rfl

theorem sext8_neg128 : sext8 (-128) = -128 := by unfold sext8; rfl

/-- C12 as stated fails: with a requantization result `r = 2147483647` and
`out_offset = 1` the 32-bit sum wraps to `-2147483648`, and the byte stored is
`out_activation_min = -128`, not `min(max(r + out_offset, -128), 127) = 127`. -/
theorem C12_counterexample :
    (-128 ≤ offsetOneArgs.out_activation_min ∧
      offsetOneArgs.out_activation_min ≤ offsetOneArgs.out_activation_max ∧
      offsetOneArgs.out_activation_max ≤ 127) ∧
    saturatedExtern.arm_nn_requantize
      (fallbackAcc sampleBitmaps offsetOneArgs (0 * kerStride offsetOneArgs) 0)
      (wrap32 (offsetOneArgs.output_mult 0)) (wrap32 (offsetOneArgs.output_shift 0))
        = 2147483647 ∧
    (convolve_1x1_s8 saturatedExtern sampleBitmaps offsetOneArgs sampleState).state.output 0
      = -128 ∧
    min (max ((2147483647 : Int) + offsetOneArgs.out_offset) offsetOneArgs.out_activation_min)
      offsetOneArgs.out_activation_max = 127 := by
  have h1 : offsetOneArgs.output_x.val * offsetOneArgs.output_y.val = 1 := by decide
  have hodd : numElements offsetOneArgs % 2 = 1 := numElements_odd offsetOneArgs (by decide)
  have hst := stored_byte saturatedExtern sampleBitmaps offsetOneArgs sampleState
    (by decide) hodd 0 (by decide)
  rw [vecRun_one saturatedExtern offsetOneArgs sampleState h1] at hst
  refine ⟨⟨by decide, by decide, by decide⟩, rfl, ?_, by decide⟩
  have e0 : (0 : Nat) + 0 = 0 := rfl
  simp only [e0] at hst
  rw [hst]
  have hoff : offsetOneArgs.out_offset = 1 := rfl
  have hmin : offsetOneArgs.out_activation_min = -128 := rfl
  have hmax : offsetOneArgs.out_activation_max = 127 := rfl
  have hq : ∀ v m sh, saturatedExtern.arm_nn_requantize v m sh = 2147483647 := fun _ _ _ => rfl
  unfold outByte
  rw [hq, hoff, hmin, hmax, wrap32_int_max_succ]
  have hmm : min (max (-2147483648 : Int) (-128)) 127 = -128 := by decide
  rw [hmm, sext8_neg128]


/-- C13: when requantization with the `(multiplier, shift)` pair of channel `c`
is the identity on 32-bit values and `out_offset = 0`, the byte stored for
channel `c` of the residual position is the raw accumulator of the channel (the
value reported in its `'r'` message) clamped to
`[out_activation_min, out_activation_max]`, for every accumulator and every
range with `-128 <= out_activation_min <= out_activation_max <= 127`. -/
theorem C13_requantization_round_trip (x : Extern) (g : Bitmaps) (a : Args) (s : State)
    (h4 : a.input_ch.val % 4 = 0)
    (hodd : (a.output_x.val * a.output_y.val) % 2 = 1)
    (c : Nat) (hc : c < a.output_ch.val)
    (hid : ∀ v : Int, -2147483648 ≤ v → v < 2147483648 →
      x.arm_nn_requantize v (wrap32 (a.output_mult c)) (wrap32 (a.output_shift c)) = v)
    (hoff : a.out_offset = 0)
    (hb : -128 ≤ a.out_activation_min ∧ a.out_activation_min ≤ a.out_activation_max ∧
      a.out_activation_max ≤ 127) :
    (convolve_1x1_s8 x g a s).sums[c]? = some (fallbackAcc g a (c * kerStride a) c) ∧
    (convolve_1x1_s8 x g a s).state.output ((vecRun x a s).out + c)
      = min (max (fallbackAcc g a (c * kerStride a) c) a.out_activation_min)
          a.out_activation_max := by
  have ho := numElements_odd a hodd
  have hr := fallbackAcc_range g a (c * kerStride a) c
  refine ⟨sums_get x g a s h4 ho c hc, ?_⟩
  rw [stored_byte x g a s h4 ho c hc, outByte_clamp x a _ c hb, hid _ hr.1 hr.2, hoff,
    add_zero, wrap32_of_range _ hr.1 hr.2]

/-- C13, witness: channel 1 of the sample call (identity requantization, zero
output offset). -/
theorem C13_requantization_round_trip_witness :
    (sampleArgs.input_ch.val % 4 = 0 ∧
      (sampleArgs.output_x.val * sampleArgs.output_y.val) % 2 = 1 ∧
      1 < sampleArgs.output_ch.val ∧
      sampleExtern.arm_nn_requantize 1000 (wrap32 (sampleArgs.output_mult 1))
        (wrap32 (sampleArgs.output_shift 1)) = 1000 ∧
      sampleArgs.out_offset = 0 ∧
      -128 ≤ sampleArgs.out_activation_min ∧
      sampleArgs.out_activation_min ≤ sampleArgs.out_activation_max ∧
      sampleArgs.out_activation_max ≤ 127) ∧
    ((convolve_1x1_s8 sampleExtern sampleBitmaps sampleArgs sampleState).sums[1]?
      = some (fallbackAcc sampleBitmaps sampleArgs (1 * kerStride sampleArgs) 1) ∧
    (convolve_1x1_s8 sampleExtern sampleBitmaps sampleArgs sampleState).state.output
        ((vecRun sampleExtern sampleArgs sampleState).out + 1)
      = min (max (fallbackAcc sampleBitmaps sampleArgs (1 * kerStride sampleArgs) 1)
          sampleArgs.out_activation_min) sampleArgs.out_activation_max) :=
  ⟨⟨by decide, by decide, by decide, rfl, rfl, by decide, by decide, by decide⟩,
    C13_requantization_round_trip sampleExtern sampleBitmaps sampleArgs sampleState
      (by decide) (by decide) 1 (by decide) (fun _ _ _ => rfl) rfl
      ⟨by decide, by decide, by decide⟩⟩


/-! ## C11: a partial final octet -/

/-- Twelve input channels (a multiple of 4, not of 8), two output channels,
one position; weights and inputs all 1. -/
def twelveArgs : Args :=
  { input := fun _ => 1
    input_x := 1, input_y := 1, input_ch := 12
    kernel := fun _ => 1
    bias := fun _ => 0, output_shift := fun _ => 0, output_mult := fun _ => 0
    out_offset := 0, input_offset := 0
    out_activation_min := -128, out_activation_max := 127
    output_x := 1, output_y := 1, output_ch := 2 }

theorem twelveArgs_fallbackAcc (ker_a c : Nat) :
    fallbackAcc allImportant twelveArgs ker_a c = 8 := by
  rw [fallbackAcc_eq]
  have hterm : ∀ i ∈ Finset.range (kerStride twelveArgs),
      loopTerm allImportant twelveArgs.kernel twelveArgs.input 0 ker_a 0 i = 1 := by
    intro i _
    unfold loopTerm
    rw [if_pos (allImportant_executes _ _)]
    have hk : twelveArgs.kernel (ker_a + i) = 1 := rfl
    have hin : twelveArgs.input (0 + i) = 1 := rfl
    rw [hk, hin, sext8_one]
    rfl
  rw [Finset.sum_congr rfl hterm, Finset.sum_const, Finset.card_range]
  have h8 : kerStride twelveArgs = 8 := by decide
  have hb : twelveArgs.bias c = 0 := rfl
  rw [h8, hb]
  exact wrap32_of_range _ (by norm_num) (by norm_num)

theorem twelveArgs_maskedSum (c : Nat) : maskedSum allImportant twelveArgs c = 12 := by
  unfold maskedSum
  have hterm : ∀ i ∈ Finset.range twelveArgs.input_ch.val,
      contribution allImportant twelveArgs.kernel twelveArgs.input
        (c * twelveArgs.input_ch.val) (i / 8) i = 1 := by
    intro i _
    unfold contribution
    rw [if_pos (allImportant_executes _ _)]
    have hk : twelveArgs.kernel (c * twelveArgs.input_ch.val + i) = 1 := rfl
    have hin : twelveArgs.input i = 1 := rfl
    rw [hk, hin, sext8_one]
    rfl
  rw [Finset.sum_congr rfl hterm, Finset.sum_const, Finset.card_range]
  have h12 : twelveArgs.input_ch.val = 12 := by decide
  have hb : twelveArgs.bias c = 0 := rfl
  rw [h12, hb]
  exact wrap32_of_range _ (by norm_num) (by norm_num)

theorem twelveArgs_macCount_zero (k j : Nat)
    (h : ∀ c i, c < 2 → i < 8 → ¬ (c * 8 + i = k ∧ i = j)) :
    List.count (Event.mac k j)
      (convolve_1x1_s8 sampleExtern allImportant twelveArgs sampleState).state.trace = 0 := by
  have hodd : numElements twelveArgs % 2 = 1 := numElements_odd twelveArgs (by decide)
  rw [trace_macCount sampleExtern allImportant twelveArgs sampleState (by decide) hodd,
    Finset.sum_eq_zero]
  · rfl
  · intro c hc
    apply Finset.sum_eq_zero
    intro i hi
    have h8 : kerStride twelveArgs = 8 := by decide
    have hc2 : c < 2 := Finset.mem_range.1 hc
    have hi8 : i < 8 := by have := Finset.mem_range.1 hi; omega
    unfold macInd
    rw [if_neg]
    rintro ⟨_, e1, e2⟩
    rw [h8] at e1
    exact h c i hc2 hi8 ⟨e1, by omega⟩

/-- C11, evaluation at a failing input: twelve input channels, every importance
bit set, weights and inputs 1, two output channels. Each channel runs one
octet and accumulates 8, not 12: no MAC is executed on `input[8..11]` (none on
element 8 of channel 0, `kernel[8] * input[8]`), and channel 1 does not start at
`kernel[12]` (no MAC `kernel[12] * input[0]`). -/
theorem C11_partial_octet_dropped :
    (twelveArgs.input_ch.val % 4 = 0 ∧ twelveArgs.input_ch.val % 8 = 4) ∧
    (convolve_1x1_s8 sampleExtern allImportant twelveArgs sampleState).sums = [8, 8] ∧
    maskedSum allImportant twelveArgs 0 = 12 ∧ maskedSum allImportant twelveArgs 1 = 12 ∧
    List.count (Event.mac 8 8)
      (convolve_1x1_s8 sampleExtern allImportant twelveArgs sampleState).state.trace = 0 ∧
    List.count (Event.mac 12 0)
      (convolve_1x1_s8 sampleExtern allImportant twelveArgs sampleState).state.trace = 0 := by
  have hodd : numElements twelveArgs % 2 = 1 := numElements_odd twelveArgs (by decide)
  refine ⟨⟨by decide, by decide⟩, ?_, twelveArgs_maskedSum 0, twelveArgs_maskedSum 1,
    twelveArgs_macCount_zero 8 8 (by intro c i _ _ h; omega),
    twelveArgs_macCount_zero 12 0 (by intro c i _ _ h; omega)⟩
  rw [(convolve_odd sampleExtern allImportant twelveArgs sampleState (by decide) hodd).2.1]
  have hoc : twelveArgs.output_ch.val = 2 := by decide
  rw [hoc]
  simp only [List.range_succ, List.range_zero, List.nil_append, List.map_cons, List.map_nil,
    List.map_append, twelveArgs_fallbackAcc, List.singleton_append]


/-! ## C15: the trigger -/

theorem sample_macEvents (ker_a c : Nat) : macEvents sampleBitmaps sampleArgs ker_a c =
    [Event.readIaPAM 0, Event.readToExec 0, Event.readIaPAM 0, Event.readToExec 0,
     Event.readIaPAM 0, Event.readToExec 0, Event.readIaPAM 0, Event.readToExec 0,
     Event.readIaPAM 0, Event.readToExec 0,
     Event.readIaPAM 0, Event.mac (ker_a + 2) 2,
     Event.readIaPAM 0, Event.readToExec 0, Event.mac (ker_a + 1) 1,
     Event.readIaPAM 0, Event.mac ker_a 0] := by
  unfold macEvents
  simp +decide [colLoop, octetLoop, sampleBitmaps, sampleArgs, ldrb]

theorem count_trigger_maskedWork (tr : List Event) (h : ∀ e ∈ tr, e.isMaskedWork = true) :
    List.count Event.triggerHigh tr = 0 ∧ List.count Event.triggerLow tr = 0 := by
  constructor
  · rw [List.count_eq_zero]
    intro hm
    exact absurd (h _ hm) (by decide)
  · rw [List.count_eq_zero]
    intro hm
    exact absurd (h _ hm) (by decide)

theorem count_trigger_chanEvents (g : Bitmaps) (a : Args) (ker_a c : Nat) :
    List.count Event.triggerHigh (chanEvents g a ker_a c) = 0 ∧
    List.count Event.triggerLow (chanEvents g a ker_a c) = 1 := by
  have hm := count_trigger_maskedWork (macEvents g a ker_a c)
    (colLoop_events_maskedWork _ _ _ _ _ _ _ _)
  unfold chanEvents
  rw [List.count_append, List.count_append, hm.1, hm.2]
  simp [List.count_cons]

theorem count_trigger_flatMap (g : Bitmaps) (a : Args) (f : Nat → Nat) (n : Nat) :
    List.count Event.triggerHigh ((List.range n).flatMap (fun c => chanEvents g a (f c) c)) = 0 ∧
    List.count Event.triggerLow ((List.range n).flatMap (fun c => chanEvents g a (f c) c)) = n := by
  induction n with
  | zero => simp
  | succ n ih =>
    rw [List.range_succ, List.flatMap_append, List.count_append, List.count_append, ih.1, ih.2]
    simp [count_trigger_chanEvents]

theorem count_trigger_emitted (x : Extern) (g : Bitmaps) (a : Args) (s : State)
    (h4 : a.input_ch.val % 4 = 0) (hodd : numElements a % 2 = 1) :
    List.count Event.triggerHigh (emitted x g a s) = 1 ∧
    List.count Event.triggerLow (emitted x g a s) = a.output_ch.val := by
  have hv : List.count Event.triggerHigh ((List.range (vecPasses a)).map Event.vecPass) = 0 ∧
      List.count Event.triggerLow ((List.range (vecPasses a)).map Event.vecPass) = 0 := by
    constructor
    · rw [List.count_eq_zero]
      intro hm
      obtain ⟨_, _, h⟩ := List.mem_map.1 hm
      cases h
    · rw [List.count_eq_zero]
      intro hm
      obtain ⟨_, _, h⟩ := List.mem_map.1 hm
      cases h
  have hf := count_trigger_flatMap g a (fun c => c * kerStride a) a.output_ch.val
  rw [emitted_odd x g a s h4 hodd, List.count_append, List.count_append, List.count_cons,
    List.count_cons, hv.1, hv.2, hf.1, hf.2]
  simp

/-- C15, evaluation at a failing input: the sample call with two output
channels. `trigger_high` is called once, before the channel loop, and
`trigger_low` once per channel: the whole MAC loop of channel 1 (for instance
the MAC on `kernel[8]` and `input[0]`) runs after the deassertion that ends
channel 0, with no assertion in between, and there are one assertion and two
deassertions. -/
theorem C15_trigger_not_reasserted :
    emitted sampleExtern sampleBitmaps sampleArgs sampleState =
      Event.triggerHigh ::
        (macEvents sampleBitmaps sampleArgs 0 0 ++
          [Event.triggerLow,
            Event.put 'r' (bytesOfInt32 (fallbackAcc sampleBitmaps sampleArgs 0 0)),
            Event.put 'e' [0]] ++
          (macEvents sampleBitmaps sampleArgs 8 1 ++
          [Event.triggerLow,
            Event.put 'r' (bytesOfInt32 (fallbackAcc sampleBitmaps sampleArgs 8 1)),
            Event.put 'e' [0]])) ∧
    Event.mac 8 0 ∈ macEvents sampleBitmaps sampleArgs 8 1 ∧
    Event.triggerHigh ∉ macEvents sampleBitmaps sampleArgs 8 1 ∧
    List.count Event.triggerHigh (emitted sampleExtern sampleBitmaps sampleArgs sampleState) = 1 ∧
    List.count Event.triggerLow (emitted sampleExtern sampleBitmaps sampleArgs sampleState) = 2 := by
  have h1 : sampleArgs.output_x.val * sampleArgs.output_y.val = 1 := by decide
  have hodd : numElements sampleArgs % 2 = 1 := numElements_odd sampleArgs (by decide)
  have hc := count_trigger_emitted sampleExtern sampleBitmaps sampleArgs sampleState
    (by decide) hodd
  refine ⟨?_, ?_, ?_, hc.1, hc.2⟩
  · rw [emitted_odd sampleExtern sampleBitmaps sampleArgs sampleState (by decide) hodd,
      vecPasses_one sampleArgs h1]
    have hoc : sampleArgs.output_ch.val = 2 := by decide
    have hk : kerStride sampleArgs = 8 := by decide
    rw [hoc, hk]
    simp [List.range_succ, chanEvents]
  · rw [sample_macEvents]
    simp
  · rw [sample_macEvents]
    simp


/-! ## C19: the accumulator does not wrap -/

theorem sext8_range (v : Int) : -128 ≤ sext8 v ∧ sext8 v ≤ 127 := by
  unfold sext8; omega

theorem abs_loopTerm_le (g : Bitmaps) (kernel input : Nat → Int)
    (input_set ker_a ip i : Nat) :
    |loopTerm g kernel input input_set ker_a ip i| ≤ 16384 := by
  unfold loopTerm
  split
  · have hk := sext8_range (kernel (ker_a + i))
    have hi := sext8_range (input (ip + i))
    rw [abs_mul]
    have h1 : |sext8 (kernel (ker_a + i))| ≤ 128 := abs_le.2 ⟨by omega, by omega⟩
    have h2 : |sext8 (input (ip + i))| ≤ 128 := abs_le.2 ⟨by omega, by omega⟩
    calc |sext8 (kernel (ker_a + i))| * |sext8 (input (ip + i))|
        ≤ 128 * 128 := mul_le_mul h1 h2 (abs_nonneg _) (by norm_num)
      _ = 16384 := by norm_num
  · simp

theorem abs_subset_sum_le (g : Bitmaps) (a : Args) (ker_a : Nat) (T : Finset Nat)
    (hT : T ⊆ Finset.range (kerStride a)) :
    |∑ i in T, loopTerm g a.kernel a.input 0 ker_a 0 i| ≤ 1073725440 := by
  have hcard : T.card ≤ 65535 := by
    have h1 := Finset.card_le_card hT
    rw [Finset.card_range] at h1
    have h2 : kerStride a ≤ a.input_ch.val := by unfold kerStride; omega
    have h3 := a.input_ch.isLt
    omega
  calc |∑ i in T, loopTerm g a.kernel a.input 0 ker_a 0 i|
      ≤ ∑ i in T, |loopTerm g a.kernel a.input 0 ker_a 0 i| := Finset.abs_sum_le_sum_abs _ _
    _ ≤ ∑ _i in T, (16384 : Int) := Finset.sum_le_sum (fun i _ => abs_loopTerm_le _ _ _ _ _ _ i)
    _ = (T.card : Int) * 16384 := by rw [Finset.sum_const, nsmul_eq_mul]
    _ ≤ 1073725440 := by
      have : (T.card : Int) ≤ 65535 := by exact_mod_cast hcard
      omega

/-- C19: for every `input_ch` (a `uint16_t`) and every bias with
`|bias[c]| <= 2^30`, `bias[c]` plus the products of any set of processed elements
(so every intermediate value and the final value of the accumulator) lies in
the signed 32-bit range, and the accumulator of channel `c` is the exact integer
sum of `bias[c]` and the executed products, whatever the masks, weights and
inputs are. -/
theorem C19_accumulator_never_wraps (x : Extern) (g : Bitmaps) (a : Args) (s : State)
    (h4 : a.input_ch.val % 4 = 0)
    (hodd : (a.output_x.val * a.output_y.val) % 2 = 1)
    (c : Nat) (hc : c < a.output_ch.val)
    (hb : -1073741824 ≤ a.bias c ∧ a.bias c ≤ 1073741824) :
    (∀ T : Finset Nat, T ⊆ Finset.range (kerStride a) →
      -2147483648 ≤ a.bias c + ∑ i in T, loopTerm g a.kernel a.input 0 (c * kerStride a) 0 i ∧
      a.bias c + ∑ i in T, loopTerm g a.kernel a.input 0 (c * kerStride a) 0 i
        < 2147483648) ∧
    (convolve_1x1_s8 x g a s).sums[c]?
      = some (a.bias c + ∑ i in Finset.range (kerStride a),
          loopTerm g a.kernel a.input 0 (c * kerStride a) 0 i) := by
  have hsub : ∀ T : Finset Nat, T ⊆ Finset.range (kerStride a) →
      -2147483648 ≤ a.bias c + ∑ i in T, loopTerm g a.kernel a.input 0 (c * kerStride a) 0 i ∧
      a.bias c + ∑ i in T, loopTerm g a.kernel a.input 0 (c * kerStride a) 0 i
        < 2147483648 := by
    intro T hT
    have h := abs_le.1 (abs_subset_sum_le g a (c * kerStride a) T hT)
    constructor
    · linarith [h.1, hb.1]
    · linarith [h.2, hb.2]
  refine ⟨hsub, ?_⟩
  have hfull := hsub (Finset.range (kerStride a)) (Finset.Subset.refl _)
  rw [sums_get x g a s h4 (numElements_odd a hodd) c hc, fallbackAcc_eq,
    wrap32_of_range _ hfull.1 hfull.2]

/-- C19, witness: channel 1 of the sample call, `bias[1] = 10`. -/
theorem C19_accumulator_never_wraps_witness :
    (sampleArgs.input_ch.val % 4 = 0 ∧
      (sampleArgs.output_x.val * sampleArgs.output_y.val) % 2 = 1 ∧
      1 < sampleArgs.output_ch.val ∧
      -1073741824 ≤ sampleArgs.bias 1 ∧ sampleArgs.bias 1 ≤ 1073741824) ∧
    ((∀ T : Finset Nat, T ⊆ Finset.range (kerStride sampleArgs) →
      -2147483648 ≤ sampleArgs.bias 1 + ∑ i in T,
        loopTerm sampleBitmaps sampleArgs.kernel sampleArgs.input 0
          (1 * kerStride sampleArgs) 0 i ∧
      sampleArgs.bias 1 + ∑ i in T,
        loopTerm sampleBitmaps sampleArgs.kernel sampleArgs.input 0
          (1 * kerStride sampleArgs) 0 i < 2147483648) ∧
    (convolve_1x1_s8 sampleExtern sampleBitmaps sampleArgs sampleState).sums[1]?
      = some (sampleArgs.bias 1 + ∑ i in Finset.range (kerStride sampleArgs),
          loopTerm sampleBitmaps sampleArgs.kernel sampleArgs.input 0
            (1 * kerStride sampleArgs) 0 i)) :=
  ⟨⟨by decide, by decide, by decide, by decide, by decide⟩,
    C19_accumulator_never_wraps sampleExtern sampleBitmaps sampleArgs sampleState
      (by decide) (by decide) 1 (by decide) ⟨by decide, by decide⟩⟩


/-! ## C14: calling the kernel twice -/

/-- Modelled from the spec: the frame of the external routines that touch
buffers, whose code is not part of this translation unit. The macro
`q7_q15_offset_reordered_ele(src, dst)` writes the four `q15_t` at `dst` from
the input bytes and the offset and nothing else ("produce a stream of 16-bit
values, each equal to `byte + offset`", "pure, side-effect-free", section 4.1).
The routine `arm_nn_mat_mult_kernel_s8_s16_reordered` reads the two expanded
columns (`2 * num_col_a` values of the scratch buffer), writes "one output
byte per channel per position" (`2 * output_ch` bytes at `out`) and returns
`out` advanced past them (section 4.2). -/
structure Extern.Framed (x : Extern) : Prop where
  ele_frame : ∀ (input : Nat → Int) (src : Nat) (off : Int) (buf : Nat → Int) (dst j : Nat),
    ¬ (dst ≤ j ∧ j < dst + 4) → x.q7_q15_offset_reordered_ele input src off buf dst j = buf j
  ele_written : ∀ (input : Nat → Int) (src : Nat) (off : Int) (buf buf' : Nat → Int)
    (dst j : Nat), dst ≤ j → j < dst + 4 →
    x.q7_q15_offset_reordered_ele input src off buf dst j
      = x.q7_q15_offset_reordered_ele input src off buf' dst j
  mm_out : ∀ (k buf : Nat → Int) (oc : Nat) (sh mu : Nat → Int) (off mn mx : Int) (nc : Nat)
    (b output : Nat → Int) (out : Nat),
    (x.arm_nn_mat_mult_kernel_s8_s16_reordered k buf oc sh mu off mn mx nc b output out).2
      = out + 2 * oc
  mm_frame : ∀ (k buf : Nat → Int) (oc : Nat) (sh mu : Nat → Int) (off mn mx : Int) (nc : Nat)
    (b output : Nat → Int) (out j : Nat), ¬ (out ≤ j ∧ j < out + 2 * oc) →
    (x.arm_nn_mat_mult_kernel_s8_s16_reordered k buf oc sh mu off mn mx nc b output out).1 j
      = output j
  mm_written : ∀ (k buf buf' : Nat → Int) (oc : Nat) (sh mu : Nat → Int) (off mn mx : Int)
    (nc : Nat) (b output output' : Nat → Int) (out j : Nat),
    (∀ i, i < 2 * nc → buf i = buf' i) → out ≤ j → j < out + 2 * oc →
    (x.arm_nn_mat_mult_kernel_s8_s16_reordered k buf oc sh mu off mn mx nc b output out).1 j
      = (x.arm_nn_mat_mult_kernel_s8_s16_reordered k buf' oc sh mu off mn mx nc b output' out).1 j

theorem fillLoop_frame (x : Extern) (hx : x.Framed) (input : Nat → Int) (off : Int)
    (cnt src dst : Nat) (buf : Nat → Int) (j : Nat) (hj : ¬ (dst ≤ j ∧ j < dst + 4 * cnt)) :
    fillLoop x input off cnt src dst buf j = buf j := by
  induction cnt generalizing src dst buf with
  | zero => rfl
  | succ n ih =>
    rw [fillLoop, ih (src + 4) (dst + 4) _ (by omega), hx.ele_frame _ _ _ _ _ _ (by omega)]

theorem fillLoop_written (x : Extern) (hx : x.Framed) (input : Nat → Int) (off : Int)
    (cnt src dst : Nat) (buf buf' : Nat → Int) (j : Nat)
    (h1 : dst ≤ j) (h2 : j < dst + 4 * cnt) :
    fillLoop x input off cnt src dst buf j = fillLoop x input off cnt src dst buf' j := by
  induction cnt generalizing src dst buf buf' with
  | zero => omega
  | succ n ih =>
    rw [fillLoop, fillLoop]
    by_cases hj : j < dst + 4
    · rw [fillLoop_frame x hx input off n (src + 4) (dst + 4) _ j (by omega),
        fillLoop_frame x hx input off n (src + 4) (dst + 4) _ j (by omega)]
      exact hx.ele_written _ _ _ _ _ _ _ h1 hj
    · exact ih (src + 4) (dst + 4) _ _ (by omega) (by omega)


theorem vecLoop_out (x : Extern) (hx : x.Framed) (a : Args) (off : Int) (todo i : Nat)
    (output buf : Nat → Int) (out : Nat) :
    (vecLoop x a off todo i output buf out).out = out + todo * (2 * a.output_ch.val) := by
  induction todo generalizing i output buf out with
  | zero => simp [vecLoop]
  | succ n ih =>
    rw [vecLoop]
    simp only [ih, hx.mm_out]
    ring

theorem vecLoop_frame (x : Extern) (hx : x.Framed) (a : Args) (off : Int) (todo i : Nat)
    (output buf : Nat → Int) (out j : Nat)
    (hj : ¬ (out ≤ j ∧ j < out + todo * (2 * a.output_ch.val))) :
    (vecLoop x a off todo i output buf out).output j = output j := by
  induction todo generalizing i output buf out with
  | zero => simp [vecLoop]
  | succ n ih =>
    have e : (n + 1) * (2 * a.output_ch.val) = n * (2 * a.output_ch.val) + 2 * a.output_ch.val := by
      ring
    rw [vecLoop]
    simp only []
    rw [ih _ _ _ _ (by rw [hx.mm_out]; omega), hx.mm_frame _ _ _ _ _ _ _ _ _ _ _ _ _ (by omega)]

theorem vecLoop_written (x : Extern) (hx : x.Framed) (a : Args) (off : Int)
    (h4 : a.input_ch.val % 4 = 0) (todo i : Nat)
    (output buf output' buf' : Nat → Int) (out j : Nat)
    (h1 : out ≤ j) (h2 : j < out + todo * (2 * a.output_ch.val)) :
    (vecLoop x a off todo i output buf out).output j
      = (vecLoop x a off todo i output' buf' out).output j := by
  induction todo generalizing i output buf output' buf' out with
  | zero => omega
  | succ n ih =>
    have e : (n + 1) * (2 * a.output_ch.val) = n * (2 * a.output_ch.val) + 2 * a.output_ch.val := by
      ring
    have hbuf : ∀ k, k < 2 * a.input_ch.val →
        fillLoop x a.input off (2 * (a.input_ch.val / 4)) (i * a.input_ch.val * 2) 0 buf k
          = fillLoop x a.input off (2 * (a.input_ch.val / 4)) (i * a.input_ch.val * 2) 0 buf' k := by
      intro k hk
      exact fillLoop_written x hx a.input off _ _ 0 buf buf' k (Nat.zero_le k) (by omega)
    rw [vecLoop, vecLoop]
    simp only []
    by_cases hj : j < out + 2 * a.output_ch.val
    · rw [vecLoop_frame x hx a off n _ _ _ _ j (by rw [hx.mm_out]; omega),
        vecLoop_frame x hx a off n _ _ _ _ j (by rw [hx.mm_out]; omega)]
      exact hx.mm_written _ _ _ _ _ _ _ _ _ _ _ _ _ _ _ hbuf h1 hj
    · rw [hx.mm_out, hx.mm_out]
      exact ih _ _ _ _ _ _ (by omega) (by omega)

theorem vecRun_eq (x : Extern) (a : Args) (s : State) :
    vecRun x a s = vecLoop x a (offsetQ15x2 a) (vecPasses a) 0 s.output s.runtime_buf 0 := rfl

theorem vecRun_out (x : Extern) (hx : x.Framed) (a : Args) (s : State) :
    (vecRun x a s).out = vecPasses a * (2 * a.output_ch.val) := by
  rw [vecRun_eq, vecLoop_out x hx, Nat.zero_add]

theorem vecRun_frame (x : Extern) (hx : x.Framed) (a : Args) (s : State) (j : Nat)
    (hj : ¬ j < vecPasses a * (2 * a.output_ch.val)) :
    (vecRun x a s).output j = s.output j := by
  have hj' : ¬ (0 ≤ j ∧ j < 0 + vecPasses a * (2 * a.output_ch.val)) := by
    rw [Nat.zero_add]
    exact fun h => hj h.2
  rw [vecRun_eq]
  exact vecLoop_frame x hx a (offsetQ15x2 a) (vecPasses a) 0 s.output s.runtime_buf 0 j hj'

theorem vecRun_written (x : Extern) (hx : x.Framed) (a : Args) (s s' : State)
    (h4 : a.input_ch.val % 4 = 0) (j : Nat)
    (hj : j < vecPasses a * (2 * a.output_ch.val)) :
    (vecRun x a s).output j = (vecRun x a s').output j := by
  have hj' : j < 0 + vecPasses a * (2 * a.output_ch.val) := by
    rw [Nat.zero_add]
    exact hj
  rw [vecRun_eq, vecRun_eq]
  exact vecLoop_written x hx a (offsetQ15x2 a) h4 (vecPasses a) 0 s.output s.runtime_buf
    s'.output s'.runtime_buf 0 j (Nat.zero_le j) hj'


theorem emitted_state_independent (x : Extern) (g : Bitmaps) (a : Args) (s s' : State) :
    emitted x g a s' = emitted x g a s := by
  by_cases h4 : a.input_ch.val % 4 = 0
  · rcases numElements_mod_two a with h | h
    · rw [emitted_even x g a s h4 h, emitted_even x g a s' h4 h]
    · rw [emitted_odd x g a s h4 h, emitted_odd x g a s' h4 h]
  · rw [emitted_reject x g a s h4, emitted_reject x g a s' h4]

theorem status_sums_state_independent (x : Extern) (g : Bitmaps) (a : Args) (s s' : State) :
    (convolve_1x1_s8 x g a s').status = (convolve_1x1_s8 x g a s).status ∧
    (convolve_1x1_s8 x g a s').sums = (convolve_1x1_s8 x g a s).sums := by
  by_cases h4 : a.input_ch.val % 4 = 0
  · rcases numElements_mod_two a with h | h
    · rw [convolve_even_eq x g a s h4 h, convolve_even_eq x g a s' h4 h]
      exact ⟨rfl, rfl⟩
    · have h1 := convolve_odd x g a s h4 h
      have h2 := convolve_odd x g a s' h4 h
      rw [h1.1, h2.1, h1.2.1, h2.2.1]
      exact ⟨rfl, rfl⟩
  · rw [convolve_reject x g a s h4, convolve_reject x g a s' h4]
    exact ⟨rfl, rfl⟩

theorem result_state_output (st : tinyengine_status) (output buf : Nat → Int)
    (tr : List Event) (sums : List Int) :
    (Result.mk st (State.mk output buf tr) sums).state.output = output := rfl

theorem output_even (x : Extern) (g : Bitmaps) (a : Args) (s : State)
    (h4 : a.input_ch.val % 4 = 0) (he : numElements a % 2 = 0) :
    (convolve_1x1_s8 x g a s).state.output = (vecRun x a s).output := by
  rewrite [convolve_even_eq x g a s h4 he]
  exact result_state_output _ _ _ _ _

theorem output_second_call (x : Extern) (hx : x.Framed) (g : Bitmaps) (a : Args) (s : State)
    (j : Nat) :
    (convolve_1x1_s8 x g a (convolve_1x1_s8 x g a s).state).state.output j
      = (convolve_1x1_s8 x g a s).state.output j := by
  by_cases h4 : a.input_ch.val % 4 = 0
  · rcases numElements_mod_two a with he | ho
    · have e1 := output_even x g a s h4 he
      generalize (convolve_1x1_s8 x g a s).state = s1 at e1 ⊢
      rewrite [output_even x g a s1 h4 he]
      by_cases hj : j < vecPasses a * (2 * a.output_ch.val)
      · rewrite [e1]
        exact vecRun_written x hx a s1 s h4 j hj
      · exact vecRun_frame x hx a s1 j hj
    · have e1 := (convolve_odd x g a s h4 ho).2.2.2
      generalize (convolve_1x1_s8 x g a s).state = s1 at e1 ⊢
      rewrite [(convolve_odd x g a s1 h4 ho).2.2.2 j, e1 j, vecRun_out x hx a s1,
        vecRun_out x hx a s]
      by_cases hin : vecPasses a * (2 * a.output_ch.val) ≤ j ∧
          j < vecPasses a * (2 * a.output_ch.val) + a.output_ch.val
      · rewrite [if_pos hin, if_pos hin]
        rfl
      · rewrite [if_neg hin, if_neg hin]
        by_cases hj : j < vecPasses a * (2 * a.output_ch.val)
        · exact vecRun_written x hx a s1 s h4 j hj
        · rewrite [vecRun_frame x hx a s1 j hj, e1 j, vecRun_out x hx a s, if_neg hin]
          rfl
  · have e1 : (convolve_1x1_s8 x g a s).state = s := by
      rw [convolve_reject x g a s h4]
    rw [e1, e1]


/-- C14: the kernel reads its input region, weights, bias and scale tables and
both bitmaps only (they are arguments of the model that no result contains:
the output region and the scratch buffer are separate from them). With
external routines that keep to their frame, a second call with the same
arguments on the state left by the first returns the same status, the same
accumulators, leaves every byte of the output region as the first call left
it, and emits the same events, hence the same `'r'`/`'e'` messages. -/
theorem C14_second_call_identical (x : Extern) (hx : x.Framed) (g : Bitmaps) (a : Args)
    (s : State) :
    (convolve_1x1_s8 x g a (convolve_1x1_s8 x g a s).state).status
      = (convolve_1x1_s8 x g a s).status ∧
    (convolve_1x1_s8 x g a (convolve_1x1_s8 x g a s).state).sums
      = (convolve_1x1_s8 x g a s).sums ∧
    (convolve_1x1_s8 x g a (convolve_1x1_s8 x g a s).state).state.output
      = (convolve_1x1_s8 x g a s).state.output ∧
    emitted x g a (convolve_1x1_s8 x g a s).state = emitted x g a s ∧
    messages (emitted x g a (convolve_1x1_s8 x g a s).state) = messages (emitted x g a s) := by
  have h1 := status_sums_state_independent x g a s (convolve_1x1_s8 x g a s).state
  have h2 := emitted_state_independent x g a s (convolve_1x1_s8 x g a s).state
  refine ⟨h1.1, h1.2, ?_, h2, ?_⟩
  · funext j
    exact output_second_call x hx g a s j
  · rw [h2]

/-- External routines that keep to their frame: the macro stores
`byte + offset` for four input bytes, the matrix-multiply routine stores the
first value of the scratch buffer in each of its `2 * output_ch` output bytes. -/
def framedExtern : Extern :=
  ⟨fun input src off buf dst j => if dst ≤ j ∧ j < dst + 4 then input (src + (j - dst)) + off
      else buf j,
    fun _ buf oc _ _ _ _ _ nc _ output out =>
      (fun j => if out ≤ j ∧ j < out + 2 * oc then (if 0 < 2 * nc then buf 0 else 0)
        else output j, out + 2 * oc),
    fun v _ _ => v⟩

theorem framedExtern_framed : framedExtern.Framed := by
  constructor
  · intro input src off buf dst j hj
    simp only [framedExtern]
    rw [if_neg hj]
  · intro input src off buf buf' dst j h1 h2
    simp only [framedExtern]
    rw [if_pos ⟨h1, h2⟩, if_pos ⟨h1, h2⟩]
  · intros
    rfl
  · intro k buf oc sh mu off mn mx nc b output out j hj
    simp only [framedExtern]
    rw [if_neg hj]
  · intro k buf buf' oc sh mu off mn mx nc b output output' out j hbuf h1 h2
    simp only [framedExtern]
    rw [if_pos (And.intro h1 h2)]
    by_cases hn : 0 < 2 * nc
    · rw [if_pos hn, if_pos (And.intro h1 h2), if_pos hn, hbuf 0 hn]
    · rw [if_neg hn, if_pos (And.intro h1 h2), if_neg hn]

/-- C14, witness: the three-position call (one two-column pass and the
residual position) with framed external routines. -/
theorem C14_second_call_identical_witness :
    framedExtern.Framed ∧
    ((convolve_1x1_s8 framedExtern allImportant threePosArgs
        (convolve_1x1_s8 framedExtern allImportant threePosArgs sampleState).state).status
      = (convolve_1x1_s8 framedExtern allImportant threePosArgs sampleState).status ∧
    (convolve_1x1_s8 framedExtern allImportant threePosArgs
        (convolve_1x1_s8 framedExtern allImportant threePosArgs sampleState).state).sums
      = (convolve_1x1_s8 framedExtern allImportant threePosArgs sampleState).sums ∧
    (convolve_1x1_s8 framedExtern allImportant threePosArgs
        (convolve_1x1_s8 framedExtern allImportant threePosArgs sampleState).state).state.output
      = (convolve_1x1_s8 framedExtern allImportant threePosArgs sampleState).state.output ∧
    emitted framedExtern allImportant threePosArgs
        (convolve_1x1_s8 framedExtern allImportant threePosArgs sampleState).state
      = emitted framedExtern allImportant threePosArgs sampleState ∧
    messages (emitted framedExtern allImportant threePosArgs
        (convolve_1x1_s8 framedExtern allImportant threePosArgs sampleState).state)
      = messages (emitted framedExtern allImportant threePosArgs sampleState)) :=
  ⟨framedExtern_framed,
    C14_second_call_identical framedExtern framedExtern_framed allImportant threePosArgs
      sampleState⟩

end TinyEngine
